import Mathlib

/-!
# Verification of the A2S query client (`src/query.py`)

A shallow embedding of the protocol engine of `query.py`: the `SourcePacket`
wire codec (a cursor over a byte buffer), the datagram receive / split-packet
reassembly logic of `Query.receive`, the request builder of `Query.send`, the
challenge subprotocol of `Query.receive_challenge`, and the three response
decoders (`info`, `rules`, `players`).

Modelling conventions:
* Python `bytes` values are `List Nat` with every element below 256; the
  codec functions never assume the bound, mirroring `struct.unpack`, which
  returns whatever byte values are present.
* Python `str` values are lists of Unicode code points (`List Nat`); the
  UTF-8 encoder/decoder used by `write_string` / `get_string` is embedded
  explicitly (`utf8Encode` / `utf8Decode`).
* 32-bit floats are represented by their IEEE-754 bit patterns
  (a `Nat` below 2^32); `struct.pack('<f', _)` / `unpack` become the
  little-endian byte serialisation of that pattern.
* Exceptions become explicit `PyErr` values.  Codec reads return the
  attempted value *and* the mutated cursor, because `BytesIO.read1`
  advances the position even when the subsequent `struct.unpack` fails —
  the `players` decoder depends on that.
* The network is a list of incoming datagrams; `recv` consumes the head
  (truncated to `PACKET_SIZE = 1400` bytes) and an empty list stands for a
  timeout of the blocking wait.
-/

/-- The exception kinds raised by `query.py` and the Python runtime calls it
makes.  `unicodeDecodeError` and `unicodeEncodeError` are subclasses of
`ValueError` in Python; `isValueError` captures that for `except ValueError`
clauses. -/
inductive PyErr where
  | structError
  | valueError
  | unicodeDecodeError
  | unicodeEncodeError
  | queryError
  | challengeError
  | timeout
  deriving DecidableEq, Repr

/-- `except (ValueError, ...)`: `UnicodeDecodeError` and `UnicodeEncodeError`
are `ValueError` subclasses. -/
def PyErr.isValueError : PyErr → Bool
  | .valueError => true
  | .unicodeDecodeError => true
  | .unicodeEncodeError => true
  | _ => false

/-- `SourcePacket(BytesIO)`: a byte buffer plus a cursor position. -/
structure SourcePacket where
  data : List Nat
  pos : Nat
  deriving DecidableEq, Repr

instance : Inhabited SourcePacket := ⟨⟨[], 0⟩⟩

/-- Little-endian byte serialisation: `width` bytes of `n` (mod 256^width). -/
def toLE : Nat → Nat → List Nat
  | 0, _ => []
  | w + 1, n => n % 256 :: toLE w (n / 256)

/-- Little-endian byte deserialisation. -/
def fromLE : List Nat → Nat
  | [] => 0
  | b :: bs => b + 256 * fromLE bs

/-- Two's-complement reading of a 16-bit unsigned value (`struct.unpack '<h'`). -/
def toSigned16 (n : Nat) : Int :=
  if n < 32768 then (n : Int) else (n : Int) - 65536

/-- Two's-complement reading of a 32-bit unsigned value (`struct.unpack '<l'`). -/
def toSigned32 (n : Nat) : Int :=
  if n < 2147483648 then (n : Int) else (n : Int) - 4294967296

/-- The 4 little-endian bytes of a signed 32-bit value (`struct.pack '<l'`). -/
def int32LE (i : Int) : List Nat := toLE 4 (i % 4294967296).toNat

/-- A Unicode code point Python's UTF-8 codec accepts (below 0x110000 and not
a surrogate). -/
def validChar (c : Nat) : Prop := c < 1114112 ∧ ¬(55296 ≤ c ∧ c < 57344)

instance (c : Nat) : Decidable (validChar c) := by
  unfold validChar; infer_instance

/-- UTF-8 encoding of one code point (assumes `validChar`). -/
def utf8EncodeChar (c : Nat) : List Nat :=
  if c < 128 then [c]
  else if c < 2048 then [192 + c / 64, 128 + c % 64]
  else if c < 65536 then [224 + c / 4096, 128 + c / 64 % 64, 128 + c % 64]
  else [240 + c / 262144, 128 + c / 4096 % 64, 128 + c / 64 % 64, 128 + c % 64]

/-- UTF-8 encoding of a string of code points (`str.encode('utf-8')`,
on inputs where it does not raise). -/
def utf8Encode : List Nat → List Nat
  | [] => []
  | c :: cs => utf8EncodeChar c ++ utf8Encode cs

/-- One continuation byte check of strict UTF-8 decoding. -/
def utf8Cont (b : Nat) : Prop := 128 ≤ b ∧ b < 192

instance (b : Nat) : Decidable (utf8Cont b) := by
  unfold utf8Cont; infer_instance

/-- Decode one 2-byte UTF-8 sequence after lead byte `b` (194–223); the
lead-byte range already excludes the overlong forms C0/C1. -/
def utf8Dec2 (b : Nat) : List Nat → Option (Nat × List Nat)
  | b1 :: t =>
    if utf8Cont b1 then some ((b - 192) * 64 + (b1 - 128), t) else none
  | _ => none

/-- Decode one 3-byte UTF-8 sequence after lead byte `b` (224–239),
rejecting overlong forms and surrogates as Python's strict codec does. -/
def utf8Dec3 (b : Nat) : List Nat → Option (Nat × List Nat)
  | b1 :: b2 :: t =>
    if utf8Cont b1 ∧ utf8Cont b2 then
      let c := (b - 224) * 4096 + (b1 - 128) * 64 + (b2 - 128)
      if 2048 ≤ c ∧ ¬(55296 ≤ c ∧ c < 57344) then some (c, t) else none
    else none
  | _ => none

/-- Decode one 4-byte UTF-8 sequence after lead byte `b` (240–244),
rejecting overlong forms and code points above 0x10FFFF. -/
def utf8Dec4 (b : Nat) : List Nat → Option (Nat × List Nat)
  | b1 :: b2 :: b3 :: t =>
    if utf8Cont b1 ∧ utf8Cont b2 ∧ utf8Cont b3 then
      let c := (b - 240) * 262144 + (b1 - 128) * 4096 + (b2 - 128) * 64 + (b3 - 128)
      if 65536 ≤ c ∧ c < 1114112 then some (c, t) else none
    else none
  | _ => none

/-- Decode one code point of strict UTF-8 (`bytes.decode('utf-8')`):
rejects stray continuation bytes, overlong forms, surrogates and values
above 0x10FFFF. -/
def utf8DecodeChar : List Nat → Option (Nat × List Nat)
  | [] => none
  | b :: t =>
    if b < 128 then some (b, t)
    else if b < 194 then none
    else if b < 224 then utf8Dec2 b t
    else if b < 240 then utf8Dec3 b t
    else if b < 245 then utf8Dec4 b t
    else none

/-- The decoding loop; the fuel only bounds the recursion and is in excess
whenever it is at least the number of bytes, since every decoded code point
consumes at least one byte. -/
def utf8DecodeLoop : Nat → List Nat → Option (List Nat)
  | _, [] => some []
  | 0, _ :: _ => none
  | fuel + 1, l =>
    match utf8DecodeChar l with
    | none => none
    | some (c, rest) => (utf8DecodeLoop fuel rest).map (c :: ·)

/-- Strict UTF-8 decoding of a byte string (`bytes.decode('utf-8')`). -/
def utf8Decode (l : List Nat) : Option (List Nat) := utf8DecodeLoop l.length l

/-- Index of the first NUL byte in a list, if any
(`bytes.index(b'\x00', start)` relative to `start`). -/
def findNul : List Nat → Option Nat
  | [] => none
  | b :: t => if b = 0 then some 0 else (findNul t).map (· + 1)

/-- Code points of a Lean string literal, for embedding Python string
constants. -/
def strLit (s : String) : List Nat := s.toList.map Char.toNat

/-- `BytesIO.read1(n)`: up to `n` bytes from the cursor, advancing it by the
number of bytes actually delivered. -/
def SourcePacket.read1 (p : SourcePacket) (n : Nat) : List Nat × SourcePacket :=
  let chunk := (p.data.drop p.pos).take n
  (chunk, { p with pos := p.pos + chunk.length })

/-- `get_byte`: `struct.unpack('<B', read1(1))`; fails unless exactly one
byte was delivered.  The cursor advance of `read1` persists on failure. -/
def SourcePacket.get_byte (p : SourcePacket) : Except PyErr Nat × SourcePacket :=
  match p.read1 1 with
  | ([b], p') => (.ok b, p')
  | (_, p') => (.error .structError, p')

/-- `get_short`: `struct.unpack('<h', read1(2))`, signed little-endian. -/
def SourcePacket.get_short (p : SourcePacket) : Except PyErr Int × SourcePacket :=
  match p.read1 2 with
  | ([b0, b1], p') => (.ok (toSigned16 (fromLE [b0, b1])), p')
  | (_, p') => (.error .structError, p')

/-- `get_long`: `struct.unpack('<l', read1(4))`, signed little-endian. -/
def SourcePacket.get_long (p : SourcePacket) : Except PyErr Int × SourcePacket :=
  match p.read1 4 with
  | ([b0, b1, b2, b3], p') => (.ok (toSigned32 (fromLE [b0, b1, b2, b3])), p')
  | (_, p') => (.error .structError, p')

/-- `get_long_long`: `struct.unpack('<Q', read1(8))`, unsigned little-endian. -/
def SourcePacket.get_long_long (p : SourcePacket) : Except PyErr Nat × SourcePacket :=
  match p.read1 8 with
  | ([b0, b1, b2, b3, b4, b5, b6, b7], p') =>
      (.ok (fromLE [b0, b1, b2, b3, b4, b5, b6, b7]), p')
  | (_, p') => (.error .structError, p')

/-- `get_float`: `struct.unpack('<f', read1(4))`; the float is represented by
its IEEE-754 bit pattern. -/
def SourcePacket.get_float (p : SourcePacket) : Except PyErr Nat × SourcePacket :=
  match p.read1 4 with
  | ([b0, b1, b2, b3], p') => (.ok (fromLE [b0, b1, b2, b3]), p')
  | (_, p') => (.error .structError, p')

/-- `get_string`: scan `getvalue()` from the cursor for the next NUL, decode
the bytes in between as UTF-8, and seek past the terminator.  Raises
`ValueError` when no terminator exists and `UnicodeDecodeError` on invalid
UTF-8; the cursor is unchanged on failure (the exception is raised before
`seek`). -/
def SourcePacket.get_string (p : SourcePacket) : Except PyErr (List Nat) × SourcePacket :=
  match findNul (p.data.drop p.pos) with
  | none => (.error .valueError, p)
  | some off =>
    match utf8Decode ((p.data.drop p.pos).take off) with
    | none => (.error .unicodeDecodeError, p)
    | some s => (.ok s, { p with pos := p.pos + off + 1 })

/-- `BytesIO.write`: overwrite at the cursor, zero-padding if the cursor is
past the end, extending the buffer as needed; the cursor advances past the
written bytes. -/
def SourcePacket.writeBytes (p : SourcePacket) (bs : List Nat) : SourcePacket :=
  { data := p.data.take p.pos ++ List.replicate (p.pos - p.data.length) 0
      ++ bs ++ p.data.drop (p.pos + bs.length),
    pos := p.pos + bs.length }

/-- `write_byte`: `struct.pack('<B', v)` then write. -/
def SourcePacket.write_byte (p : SourcePacket) (v : Nat) : Except PyErr SourcePacket :=
  if v < 256 then .ok (p.writeBytes [v]) else .error .structError

/-- `write_short`: `struct.pack('<h', v)` then write. -/
def SourcePacket.write_short (p : SourcePacket) (v : Int) : Except PyErr SourcePacket :=
  if -32768 ≤ v ∧ v < 32768 then .ok (p.writeBytes (toLE 2 (v % 65536).toNat))
  else .error .structError

/-- `write_long`: `struct.pack('<l', v)` then write. -/
def SourcePacket.write_long (p : SourcePacket) (v : Int) : Except PyErr SourcePacket :=
  if -2147483648 ≤ v ∧ v < 2147483648 then .ok (p.writeBytes (int32LE v))
  else .error .structError

/-- `write_long_long`: `struct.pack('<Q', v)` then write. -/
def SourcePacket.write_long_long (p : SourcePacket) (v : Nat) : Except PyErr SourcePacket :=
  if v < 18446744073709551616 then .ok (p.writeBytes (toLE 8 v))
  else .error .structError

/-- `write_float`: `struct.pack('<f', v)` then write; `v` is the IEEE-754 bit
pattern of the float. -/
def SourcePacket.write_float (p : SourcePacket) (v : Nat) : Except PyErr SourcePacket :=
  if v < 4294967296 then .ok (p.writeBytes (toLE 4 v))
  else .error .structError

/-- `write_string`: UTF-8 encode, append a NUL terminator, write.
`str.encode` raises `UnicodeEncodeError` on surrogates. -/
def SourcePacket.write_string (p : SourcePacket) (s : List Nat) : Except PyErr SourcePacket :=
  if s.all (fun c => decide (validChar c)) then .ok (p.writeBytes (utf8Encode s ++ [0]))
  else .error .unicodeEncodeError

/-- Lift a cursor-threading read into `Except`, for contexts where the
exception propagates (no `try` around the read). -/
def orErr : Except PyErr α × SourcePacket → Except PyErr (α × SourcePacket)
  | (.ok a, p) => .ok (a, p)
  | (.error e, _) => .error e

/-- Python `dict` as an association list: assignment replaces the value of an
existing key in place, otherwise appends. -/
def pyDictInsert [DecidableEq α] : List (α × β) → α → β → List (α × β)
  | [], k, v => [(k, v)]
  | (k', v') :: t, k, v =>
    if k' = k then (k, v) :: t else (k', v') :: pyDictInsert t k v

/-- Python `dict` lookup. -/
def pyDictFind [DecidableEq α] : List (α × β) → α → Option β
  | [], _ => none
  | (k', v') :: t, k => if k' = k then some v' else pyDictFind t k

/-- The split-packet store `packets` of `Query.receive`: fragment index ↦
fragment payload. -/
abbrev FragDict := List (Nat × List Nat)

/-- `PACKET_SIZE` from `query.py`. -/
def PACKET_SIZE : Nat := 1400

/-- `WHOLE` marker. -/
def WHOLE : Int := -1

/-- `SPLIT` marker. -/
def SPLIT : Int := -2

/-- `for x in range(len(packets)): packet += packets[x]`, with a missing key
(`KeyError`) surfacing as `QueryError('Missing a split packet')`. -/
def combineLoop (packets : FragDict) (acc : List Nat) : List Nat → Except PyErr (List Nat)
  | [] => .ok acc
  | x :: xs =>
    match pyDictFind packets x with
    | none => .error .queryError
    | some v => combineLoop packets (acc ++ v) xs

/-- Concatenation step at the end of the split branch of `Query.receive`. -/
def combine (packets : FragDict) : Except PyErr (List Nat) :=
  combineLoop packets [] (List.range packets.length)

/-- The `while True` split-collection loop of `Query.receive`.  `old_pid`
mirrors `old_packet_id`, which the source initialises to `None` and never
reassigns — it is threaded through unchanged, exactly as in the code.  The
fuel argument only bounds the recursion; callers pass one more than the
number of datagrams still available, which the loop can never exceed since
every iteration beyond the first consumes a datagram. -/
def splitLoop (old_pid : Option Int) : Nat → FragDict → SourcePacket →
    List (List Nat) → Except PyErr (SourcePacket × List (List Nat))
  | 0, _, _, _ => .error .timeout
  | fuel + 1, packets, data, incoming =>
    match data.get_long with
    | (.error e, _) => .error e
    | (.ok _, data) =>
      match data.get_long with
      | (.error e, _) => .error e
      | (.ok packet_id, data) =>
        if (match old_pid with | some o => packet_id != o | none => false) then
          .error .queryError
        else
          match data.get_byte with
          | (.error e, _) => .error e
          | (.ok total, data) =>
            match data.get_byte with
            | (.error e, _) => .error e
            | (.ok number, data) =>
              match data.get_short with
              | (.error e, _) => .error e
              | (.ok _, data) =>
                let packets := pyDictInsert packets number (data.data.drop data.pos)
                if packets.length > total - 1 then
                  match combine packets with
                  | .error e => .error e
                  | .ok buf => .ok (SourcePacket.mk buf 0, incoming)
                else
                  match incoming with
                  | [] => .error .timeout
                  | d :: rest =>
                    splitLoop old_pid fuel packets
                      (SourcePacket.mk (d.take PACKET_SIZE) 0) rest

/-- `Query.receive`: take one datagram (an empty incoming list is a timeout
of the blocking `recv`); if its leading long is `WHOLE`, rewind and return
it; otherwise run the split-collection loop from the start of the datagram.
Returns the logical packet and the datagrams left unconsumed. -/
def receive (incoming : List (List Nat)) :
    Except PyErr (SourcePacket × List (List Nat)) :=
  match incoming with
  | [] => .error .timeout
  | d :: rest =>
    let data := SourcePacket.mk (d.take PACKET_SIZE) 0
    match data.get_long with
    | (.error e, _) => .error e
    | (.ok header, data') =>
      if header = WHOLE then .ok ({ data' with pos := 0 }, rest)
      else splitLoop none (rest.length + 1) [] (SourcePacket.mk (d.take PACKET_SIZE) 0) rest

/-- A well-formed split-packet datagram: SPLIT marker, packet id, total and
index bytes, the (unused) size short, then the fragment payload.  Used to
state theorems about `receive`. -/
def splitFragment (pid : Int) (total index : Nat) (payload : List Nat) : List Nat :=
  int32LE SPLIT ++ int32LE pid ++ [total, index] ++ [0, 0] ++ payload

/-- The payload argument of `Query.send`: `isinstance` distinguishes `str`
from `int`. -/
inductive PyPayload where
  | int (i : Int)
  | str (s : List Nat)
  deriving DecidableEq, Repr

/-- Python truthiness of the payload (`if payload:`): `0`, `""` and `None`
(the `Option.none` at the call site) are falsy. -/
def payloadTruthy : PyPayload → Bool
  | .int i => i != 0
  | .str s => !s.isEmpty

/-- The request datagram built by `Query.send`: WHOLE marker, header byte,
then — only if `payload` is truthy — a wire string (for `str`) or a wire
long (for `int`). -/
def buildRequest (header : Nat) (payload : Option PyPayload) : Except PyErr (List Nat) := do
  let p : SourcePacket := ⟨[], 0⟩
  let p ← p.write_long WHOLE
  let p ← p.write_byte header
  let p ←
    match payload with
    | some pl =>
      if payloadTruthy pl then
        match pl with
        | .str s => p.write_string s
        | .int i => p.write_long i
      else pure p
    | none => pure p
  pure p.data

/-- `CHALLENGE_NUMBER_REQUEST` from `query.py`. -/
def CHALLENGE_NUMBER_REQUEST : Int := -1

/-- `CHALLENGE_NUMBER_HEADER = ord('A')`. -/
def CHALLENGE_NUMBER_HEADER : Nat := 65

/-- `A2S_RULES_HEADER = ord('V')`. -/
def A2S_RULES_HEADER : Nat := 86

/-- `A2S_PLAYERS_HEADER = ord('U')`. -/
def A2S_PLAYERS_HEADER : Nat := 85

/-- `Query.receive_challenge`, with each `Query.send` call unfolded into
building the request datagram and receiving from the incoming stream.
Returns the result and the list of request datagrams that were sent
(requests are recorded when `sendto` runs, i.e. after a successful build and
before the receive). -/
def receive_challenge (header : Nat) (incoming : List (List Nat)) :
    Except PyErr SourcePacket × List (List Nat) :=
  match buildRequest header (some (.int CHALLENGE_NUMBER_REQUEST)) with
  | .error e => (.error e, [])
  | .ok req1 =>
    match receive incoming with
    | .error e => (.error e, [req1])
    | .ok (packet, incoming) =>
      match packet.get_long with
      | (.error e, _) => (.error e, [req1])
      | (.ok _, packet) =>
        match packet.get_byte with
        | (.error e, _) => (.error e, [req1])
        | (.ok rec_header, packet) =>
          if rec_header = 69 then
            (.ok { packet with pos := 0 }, [req1])
          else
            match packet.get_long with
            | (.error e, _) => (.error e, [req1])
            | (.ok challenge, _) =>
              match buildRequest header (some (.int challenge)) with
              | .error e => (.error e, [req1])
              | .ok req2 =>
                match receive incoming with
                | .error e => (.error e, [req1, req2])
                | .ok (packet, _) =>
                  match packet.get_long with
                  | (.error e, _) => (.error e, [req1, req2])
                  | (.ok _, packet) =>
                    match packet.get_byte with
                    | (.error e, _) => (.error e, [req1, req2])
                    | (.ok rec_header2, packet) =>
                      if rec_header2 = CHALLENGE_NUMBER_HEADER then
                        (.error .challengeError, [req1, req2])
                      else (.ok { packet with pos := 0 }, [req1, req2])

/-- The record built by `Query.info` (the socket-level `ping` field of the
source is omitted; everything decoded from the packet is kept).  `header`,
`server_type` and `environment` hold Python strings as code-point lists
(`chr` of the byte, or the descriptive label that replaces it);
`visibility` and `vac` stay raw integers when the byte is not 0/1, hence the
sum type.  The `edf`-gated fields are `Option`s: `none` models the key being
absent from the dict. -/
structure InfoRecord where
  raw : List Nat
  split : Int
  header : List Nat
  protocol : Nat
  name : List Nat
  game_map : List Nat
  folder : List Nat
  game : List Nat
  app_id : Int
  players : Nat
  max_players : Nat
  bots : Nat
  server_type : List Nat
  environment : List Nat
  visibility : List Nat ⊕ Nat
  vac : List Nat ⊕ Nat
  version : List Nat
  edf : Nat
  port : Option Int
  steamid : Option Nat
  sourcetv_port : Option Int
  sourcetv_name : Option (List Nat)
  keywords : Option (List Nat)
  gameid : Option Nat
  deriving DecidableEq, Repr

instance : Inhabited InfoRecord :=
  ⟨⟨[], 0, [], 0, [], [], [], [], 0, 0, 0, 0, [], [], .inr 0, .inr 0, [], 0,
    none, none, none, none, none, none⟩⟩

/-- `server_type` mapping of `Query.info`: `'d'`, `'l'`, `'p'` become labels,
anything else stays as `chr(byte)`. -/
def serverTypeLabel (c : Nat) : List Nat :=
  if c = 100 then strLit "Dedicated Server"
  else if c = 108 then strLit "Non-dedicated Server"
  else if c = 112 then strLit "SourceTV relay"
  else [c]

/-- `environment` mapping of `Query.info`: `'l'`, `'w'`, `'m'`/`'o'` become
labels, anything else stays as `chr(byte)`. -/
def environmentLabel (c : Nat) : List Nat :=
  if c = 108 then strLit "Linux"
  else if c = 119 then strLit "Windows"
  else if c = 109 ∨ c = 111 then strLit "Mac"
  else [c]

/-- `visibility` mapping of `Query.info`: 1 ↦ `'Private'`, 0 ↦ `'Public'`,
anything else stays the raw integer. -/
def visibilityLabel (c : Nat) : List Nat ⊕ Nat :=
  if c = 1 then .inl (strLit "Private")
  else if c = 0 then .inl (strLit "Public")
  else .inr c

/-- `vac` mapping of `Query.info`: 1 ↦ `'Secured'`, 0 ↦ `'Unsecured'`,
anything else stays the raw integer. -/
def vacLabel (c : Nat) : List Nat ⊕ Nat :=
  if c = 1 then .inl (strLit "Secured")
  else if c = 0 then .inl (strLit "Unsecured")
  else .inr c

/-- The fixed part of `Query.info`'s decode, from the leading long through
the EDF byte: every read failure propagates (there is no `try` in `info`). -/
def infoFixed (packet : SourcePacket) : Except PyErr (InfoRecord × SourcePacket) := do
  let raw := packet.data
  let (split, packet) ← orErr packet.get_long
  let (hdr, packet) ← orErr packet.get_byte
  let (protocol, packet) ← orErr packet.get_byte
  let (name, packet) ← orErr packet.get_string
  let (gmap, packet) ← orErr packet.get_string
  let (folder, packet) ← orErr packet.get_string
  let (game, packet) ← orErr packet.get_string
  let (app_id, packet) ← orErr packet.get_short
  let (players, packet) ← orErr packet.get_byte
  let (max_players, packet) ← orErr packet.get_byte
  let (bots, packet) ← orErr packet.get_byte
  let (server_type, packet) ← orErr packet.get_byte
  let (environment, packet) ← orErr packet.get_byte
  let (visibility, packet) ← orErr packet.get_byte
  let (vac, packet) ← orErr packet.get_byte
  let (version, packet) ← orErr packet.get_string
  let (edf, packet) ← orErr packet.get_byte
  pure (⟨raw, split, [hdr], protocol, name, gmap, folder, game, app_id,
    players, max_players, bots, serverTypeLabel server_type,
    environmentLabel environment, visibilityLabel visibility, vacLabel vac,
    version, edf, none, none, none, none, none, none⟩, packet)

/-- EDF bit 0x80: server port (wire short). -/
def edfPort (r : InfoRecord) (p : SourcePacket) :
    Except PyErr (InfoRecord × SourcePacket) :=
  if r.edf &&& 128 ≠ 0 then
    match p.get_short with
    | (.error e, _) => .error e
    | (.ok v, p) => .ok ({ r with port := some v }, p)
  else .ok (r, p)

/-- EDF bit 0x10: SteamID (wire unsigned 64-bit). -/
def edfSteamid (r : InfoRecord) (p : SourcePacket) :
    Except PyErr (InfoRecord × SourcePacket) :=
  if r.edf &&& 16 ≠ 0 then
    match p.get_long_long with
    | (.error e, _) => .error e
    | (.ok v, p) => .ok ({ r with steamid := some v }, p)
  else .ok (r, p)

/-- EDF bit 0x40: SourceTV port (short) and name (string). -/
def edfSourcetv (r : InfoRecord) (p : SourcePacket) :
    Except PyErr (InfoRecord × SourcePacket) :=
  if r.edf &&& 64 ≠ 0 then
    match p.get_short with
    | (.error e, _) => .error e
    | (.ok v, p) =>
      match p.get_string with
      | (.error e, _) => .error e
      | (.ok nm, p) =>
        .ok ({ r with sourcetv_port := some v, sourcetv_name := some nm }, p)
  else .ok (r, p)

/-- EDF bit 0x20: keyword string. -/
def edfKeywords (r : InfoRecord) (p : SourcePacket) :
    Except PyErr (InfoRecord × SourcePacket) :=
  if r.edf &&& 32 ≠ 0 then
    match p.get_string with
    | (.error e, _) => .error e
    | (.ok v, p) => .ok ({ r with keywords := some v }, p)
  else .ok (r, p)

/-- EDF bit 0x01: 64-bit game id. -/
def edfGameid (r : InfoRecord) (p : SourcePacket) :
    Except PyErr (InfoRecord × SourcePacket) :=
  if r.edf &&& 1 ≠ 0 then
    match p.get_long_long with
    | (.error e, _) => .error e
    | (.ok v, p) => .ok ({ r with gameid := some v }, p)
  else .ok (r, p)

/-- The EDF-gated tail of `Query.info`: when `edf` is non-zero, each set bit
adds its optional fields, read in the fixed order 0x80, 0x10, 0x40, 0x20,
0x01. -/
def infoExtra (r : InfoRecord) (p : SourcePacket) : Except PyErr InfoRecord := do
  if r.edf ≠ 0 then
    let (r, p) ← edfPort r p
    let (r, p) ← edfSteamid r p
    let (r, p) ← edfSourcetv r p
    let (r, p) ← edfKeywords r p
    let (r, _) ← edfGameid r p
    pure r
  else
    pure r

/-- The decode performed by `Query.info` on the reassembled packet. -/
def infoDecode (packet : SourcePacket) : Except PyErr InfoRecord := do
  let (r, packet) ← infoFixed packet
  infoExtra r packet

/-- The sentinel recorded by `Query.rules` when a rule's value is cut off. -/
def cutOffSentinel : List Nat := strLit "N/A - packet cut off"

/-- The rules mapping: Python dict keyed by rule-name strings. -/
abbrev RuleDict := List (List Nat × List Nat)

/-- The `for _ in range(total_rules)` loop of `Query.rules`: a failed name
read skips the rule, a failed value read records the cut-off sentinel, and
dict assignment gives last-write-wins for repeated names. -/
def rulesLoop : SourcePacket → RuleDict → Nat → RuleDict
  | _, rules, 0 => rules
  | p, rules, k + 1 =>
    match p.get_string with
    | (.error _, p') => rulesLoop p' rules k
    | (.ok name, p') =>
      match p'.get_string with
      | (.error _, p'') => rulesLoop p'' (pyDictInsert rules name cutOffSentinel) k
      | (.ok value, p'') => rulesLoop p'' (pyDictInsert rules name value) k

/-- The decode performed by `Query.rules` on the reassembled packet: the
leading long, header byte and 16-bit rule count are fatal reads, then the
tolerant pair loop runs (`range` of a negative count is empty, hence
`Int.toNat`). -/
def rulesDecode (packet : SourcePacket) : Except PyErr RuleDict := do
  let (_, packet) ← orErr packet.get_long
  let (_, packet) ← orErr packet.get_byte
  let (total_rules, packet) ← orErr packet.get_short
  pure (rulesLoop packet [] total_rules.toNat)

/-- One element of the `Query.players` result: a full record, or the bare
slot number left in place when the record's decode failed (`players` is
pre-seeded with `list(range(n))`).  `duration` is the IEEE-754 bit pattern
of the float. -/
inductive PlayerSlot where
  | full (index : Nat) (name : List Nat) (score : Int) (duration : Nat)
  | bare (x : Nat)
  deriving DecidableEq, Repr

/-- One player record attempt of `Query.players`: index byte, name string,
score long, duration float; on failure the cursor keeps whatever progress
the reads made. -/
def playerSlot (p : SourcePacket) :
    Except PyErr (Nat × List Nat × Int × Nat) × SourcePacket :=
  match p.get_byte with
  | (.error e, p') => (.error e, p')
  | (.ok idx, p') =>
    match p'.get_string with
    | (.error e, p'') => (.error e, p'')
    | (.ok name, p'') =>
      match p''.get_long with
      | (.error e, p₃) => (.error e, p₃)
      | (.ok score, p₃) =>
        match p₃.get_float with
        | (.error e, p₄) => (.error e, p₄)
        | (.ok dur, p₄) => (.ok (idx, name, score, dur), p₄)

/-- The `for x in range(number_of_players)` loop of `Query.players`:
successes overwrite the pre-seeded slot number, failures (all of which are
`ValueError` or `struct.error`, the caught classes) leave it bare, and
decoding continues from the cursor position the failed attempt left. -/
def playersLoop : SourcePacket → Nat → Nat → List PlayerSlot
  | _, _, 0 => []
  | p, x, k + 1 =>
    match playerSlot p with
    | (.ok (idx, name, score, dur), p') =>
        .full idx name score dur :: playersLoop p' (x + 1) k
    | (.error _, p') => .bare x :: playersLoop p' (x + 1) k

/-- The decode performed by `Query.players` on the reassembled packet: the
leading long, header byte and 8-bit player count are fatal reads, then the
tolerant slot loop runs. -/
def playersDecode (packet : SourcePacket) : Except PyErr (List PlayerSlot) := do
  let (_, packet) ← orErr packet.get_long
  let (_, packet) ← orErr packet.get_byte
  let (number_of_players, packet) ← orErr packet.get_byte
  pure (playersLoop packet 0 number_of_players)

/-- A NUL-terminated wire string as written by `write_string`. -/
def cstr (s : List Nat) : List Nat := utf8Encode s ++ [0]

/-- The wire form of one full player record, as `Query.players` reads it. -/
def playerBytes (index : Nat) (name : List Nat) (score : Int) (duration : Nat) :
    List Nat :=
  [index] ++ cstr name ++ int32LE score ++ toLE 4 duration

/-! ## Byte-level helper lemmas -/

theorem fromLE_toLE2 (n : Nat) : fromLE (toLE 2 n) = n % 65536 := by
  simp [toLE, fromLE, Nat.div_div_eq_div_mul]
  omega

theorem fromLE_toLE4 (n : Nat) : fromLE (toLE 4 n) = n % 4294967296 := by
  simp [toLE, fromLE, Nat.div_div_eq_div_mul]
  omega

theorem fromLE_toLE8 (n : Nat) : fromLE (toLE 8 n) = n % 18446744073709551616 := by
  simp [toLE, fromLE, Nat.div_div_eq_div_mul]
  omega

theorem toLE_length (w n : Nat) : (toLE w n).length = w := by
  induction w generalizing n with
  | zero => rfl
  | succ w ih => simp [toLE, ih]

theorem int32LE_length (i : Int) : (int32LE i).length = 4 := toLE_length 4 _

theorem toSigned16_round (v : Int) (h1 : -32768 ≤ v) (h2 : v < 32768) :
    toSigned16 (v % 65536).toNat = v := by
  unfold toSigned16
  split <;> omega

theorem toSigned32_round (v : Int) (h1 : -2147483648 ≤ v) (h2 : v < 2147483648) :
    toSigned32 (v % 4294967296).toNat = v := by
  unfold toSigned32
  split <;> omega

/-! ## Cursor-positioning lemmas for the codec reads -/

theorem read1_at (p : SourcePacket) (pre chunk suf : List Nat) (n : Nat)
    (hd : p.data = pre ++ chunk ++ suf) (hp : p.pos = pre.length)
    (hc : chunk.length = n) :
    p.read1 n = (chunk, ⟨p.data, pre.length + n⟩) := by
  unfold SourcePacket.read1
  have h1 : p.data.drop p.pos = chunk ++ suf := by
    rw [hd, hp, List.append_assoc, List.drop_left]
  rw [h1, ← hc, List.take_left]
  cases p
  simp_all

theorem get_byte_at (p : SourcePacket) (pre suf : List Nat) (b : Nat)
    (hd : p.data = pre ++ [b] ++ suf) (hp : p.pos = pre.length) :
    p.get_byte = (.ok b, ⟨p.data, pre.length + 1⟩) := by
  unfold SourcePacket.get_byte
  rw [read1_at p pre [b] suf 1 hd hp rfl]

theorem get_short_at (p : SourcePacket) (pre suf : List Nat) (b0 b1 : Nat)
    (hd : p.data = pre ++ [b0, b1] ++ suf) (hp : p.pos = pre.length) :
    p.get_short = (.ok (toSigned16 (fromLE [b0, b1])), ⟨p.data, pre.length + 2⟩) := by
  unfold SourcePacket.get_short
  rw [read1_at p pre [b0, b1] suf 2 hd hp rfl]

theorem get_long_at (p : SourcePacket) (pre suf : List Nat) (b0 b1 b2 b3 : Nat)
    (hd : p.data = pre ++ [b0, b1, b2, b3] ++ suf) (hp : p.pos = pre.length) :
    p.get_long = (.ok (toSigned32 (fromLE [b0, b1, b2, b3])), ⟨p.data, pre.length + 4⟩) := by
  unfold SourcePacket.get_long
  rw [read1_at p pre [b0, b1, b2, b3] suf 4 hd hp rfl]

theorem get_long_long_at (p : SourcePacket) (pre suf : List Nat)
    (b0 b1 b2 b3 b4 b5 b6 b7 : Nat)
    (hd : p.data = pre ++ [b0, b1, b2, b3, b4, b5, b6, b7] ++ suf)
    (hp : p.pos = pre.length) :
    p.get_long_long =
      (.ok (fromLE [b0, b1, b2, b3, b4, b5, b6, b7]), ⟨p.data, pre.length + 8⟩) := by
  unfold SourcePacket.get_long_long
  rw [read1_at p pre [b0, b1, b2, b3, b4, b5, b6, b7] suf 8 hd hp rfl]

theorem get_float_at (p : SourcePacket) (pre suf : List Nat) (b0 b1 b2 b3 : Nat)
    (hd : p.data = pre ++ [b0, b1, b2, b3] ++ suf) (hp : p.pos = pre.length) :
    p.get_float = (.ok (fromLE [b0, b1, b2, b3]), ⟨p.data, pre.length + 4⟩) := by
  unfold SourcePacket.get_float
  rw [read1_at p pre [b0, b1, b2, b3] suf 4 hd hp rfl]

/-- Expand a 4-wide little-endian chunk into its bytes. -/
theorem toLE4_expand (n : Nat) :
    toLE 4 n = [n % 256, n / 256 % 256, n / 65536 % 256, n / 16777216 % 256] := by
  simp [toLE, Nat.div_div_eq_div_mul]

/-- Expand an 8-wide little-endian chunk into its bytes. -/
theorem toLE8_expand (n : Nat) :
    toLE 8 n = [n % 256, n / 256 % 256, n / 65536 % 256, n / 16777216 % 256,
      n / 4294967296 % 256, n / 1099511627776 % 256, n / 281474976710656 % 256,
      n / 72057594037927936 % 256] := by
  simp [toLE, Nat.div_div_eq_div_mul]

/-- Reading a `write_long`-encoded value in place. -/
theorem get_long_int32LE (p : SourcePacket) (pre suf : List Nat) (v : Int)
    (hd : p.data = pre ++ int32LE v ++ suf) (hp : p.pos = pre.length)
    (h1 : -2147483648 ≤ v) (h2 : v < 2147483648) :
    p.get_long = (.ok v, ⟨p.data, pre.length + 4⟩) := by
  have he : int32LE v = toLE 4 (v % 4294967296).toNat := rfl
  rw [he, toLE4_expand] at hd
  rw [get_long_at p pre suf _ _ _ _ hd hp, ← toLE4_expand, fromLE_toLE4]
  have hlt : (v % 4294967296).toNat < 4294967296 := by omega
  rw [Nat.mod_eq_of_lt hlt, toSigned32_round v h1 h2]

/-- Reading a 4-byte little-endian chunk as a float bit pattern in place. -/
theorem get_float_toLE4 (p : SourcePacket) (pre suf : List Nat) (v : Nat)
    (hd : p.data = pre ++ toLE 4 v ++ suf) (hp : p.pos = pre.length)
    (hv : v < 4294967296) :
    p.get_float = (.ok v, ⟨p.data, pre.length + 4⟩) := by
  rw [toLE4_expand] at hd
  rw [get_float_at p pre suf _ _ _ _ hd hp, ← toLE4_expand, fromLE_toLE4,
    Nat.mod_eq_of_lt hv]

/-- Reading an 8-byte little-endian chunk as an unsigned 64-bit value in place. -/
theorem get_long_long_toLE8 (p : SourcePacket) (pre suf : List Nat) (v : Nat)
    (hd : p.data = pre ++ toLE 8 v ++ suf) (hp : p.pos = pre.length)
    (hv : v < 18446744073709551616) :
    p.get_long_long = (.ok v, ⟨p.data, pre.length + 8⟩) := by
  rw [toLE8_expand] at hd
  rw [get_long_long_at p pre suf _ _ _ _ _ _ _ _ hd hp, ← toLE8_expand, fromLE_toLE8,
    Nat.mod_eq_of_lt hv]

/-! ## UTF-8 codec lemmas -/

theorem utf8DecodeChar_encodeChar (c : Nat) (rest : List Nat) (hc : validChar c) :
    utf8DecodeChar (utf8EncodeChar c ++ rest) = some (c, rest) := by
  obtain ⟨hlt, hsur⟩ := hc
  rcases Nat.lt_or_ge c 128 with h1 | h1
  · rw [utf8EncodeChar, if_pos h1]
    simp only [List.cons_append, List.nil_append, utf8DecodeChar, if_pos h1]
  · rcases Nat.lt_or_ge c 2048 with h2 | h2
    · rw [utf8EncodeChar, if_neg (by omega), if_pos h2]
      have e1 : ¬(192 + c / 64 < 128) := by omega
      have e2 : ¬(192 + c / 64 < 194) := by omega
      have e3 : 192 + c / 64 < 224 := by omega
      have e4 : utf8Cont (128 + c % 64) := by unfold utf8Cont; omega
      have ev : (192 + c / 64 - 192) * 64 + (128 + c % 64 - 128) = c := by omega
      simp only [List.cons_append, List.nil_append, utf8DecodeChar, if_neg e1,
        if_neg e2, if_pos e3, utf8Dec2, if_pos e4, ev]
    · rcases Nat.lt_or_ge c 65536 with h3 | h3
      · rw [utf8EncodeChar, if_neg (by omega), if_neg (by omega), if_pos h3]
        have e1 : ¬(224 + c / 4096 < 128) := by omega
        have e2 : ¬(224 + c / 4096 < 194) := by omega
        have e3 : ¬(224 + c / 4096 < 224) := by omega
        have e4 : 224 + c / 4096 < 240 := by omega
        have e5 : utf8Cont (128 + c / 64 % 64) ∧ utf8Cont (128 + c % 64) := by
          unfold utf8Cont; omega
        have ev : (224 + c / 4096 - 224) * 4096 + (128 + c / 64 % 64 - 128) * 64 +
            (128 + c % 64 - 128) = c := by omega
        have e6 : 2048 ≤ c ∧ ¬(55296 ≤ c ∧ c < 57344) := ⟨h2, hsur⟩
        simp only [List.cons_append, List.nil_append, utf8DecodeChar, if_neg e1,
          if_neg e2, if_neg e3, if_pos e4, utf8Dec3, if_pos e5, ev, if_pos e6]
      · rw [utf8EncodeChar, if_neg (by omega), if_neg (by omega), if_neg (by omega)]
        have e1 : ¬(240 + c / 262144 < 128) := by omega
        have e2 : ¬(240 + c / 262144 < 194) := by omega
        have e3 : ¬(240 + c / 262144 < 224) := by omega
        have e4 : ¬(240 + c / 262144 < 240) := by omega
        have e5 : 240 + c / 262144 < 245 := by omega
        have e6 : utf8Cont (128 + c / 4096 % 64) ∧ utf8Cont (128 + c / 64 % 64) ∧
            utf8Cont (128 + c % 64) := by unfold utf8Cont; omega
        have ev : (240 + c / 262144 - 240) * 262144 + (128 + c / 4096 % 64 - 128) * 4096 +
            (128 + c / 64 % 64 - 128) * 64 + (128 + c % 64 - 128) = c := by omega
        have e7 : 65536 ≤ c ∧ c < 1114112 := ⟨h3, hlt⟩
        simp only [List.cons_append, List.nil_append, utf8DecodeChar, if_neg e1,
          if_neg e2, if_neg e3, if_neg e4, if_pos e5, utf8Dec4, if_pos e6, ev, if_pos e7]

theorem utf8EncodeChar_length_pos (c : Nat) : 0 < (utf8EncodeChar c).length := by
  unfold utf8EncodeChar
  split
  · simp
  · split
    · simp
    · split
      · simp
      · simp

theorem utf8DecodeLoop_encode (s : List Nat) (fuel : Nat)
    (hs : ∀ c ∈ s, validChar c) (hfuel : (utf8Encode s).length ≤ fuel) :
    utf8DecodeLoop fuel (utf8Encode s) = some s := by
  induction s generalizing fuel with
  | nil => cases fuel <;> rfl
  | cons c cs ih =>
    have hlen : 0 < (utf8Encode (c :: cs)).length := by
      rw [utf8Encode]
      have := utf8EncodeChar_length_pos c
      simp only [List.length_append]
      omega
    obtain ⟨fuel', rfl⟩ : ∃ fuel', fuel = fuel' + 1 := by
      cases fuel
      · omega
      · exact ⟨_, rfl⟩
    have hne : ∃ b t, utf8Encode (c :: cs) = b :: t := by
      cases he : utf8Encode (c :: cs)
      · rw [he] at hlen; simp at hlen
      · exact ⟨_, _, rfl⟩
    obtain ⟨b, t, he⟩ := hne
    rw [he, utf8DecodeLoop, ← he, utf8Encode,
      utf8DecodeChar_encodeChar c _ (hs c (by simp))]
    have hfuel' : (utf8Encode cs).length ≤ fuel' := by
      rw [utf8Encode] at hfuel
      have := utf8EncodeChar_length_pos c
      simp only [List.length_append] at hfuel
      omega
    have hih := ih fuel' (fun x hx => hs x (by simp [hx])) hfuel'
    simp [hih]
    simp

/-- Decoding an encoded string recovers it. -/
theorem utf8_roundtrip (s : List Nat) (hs : ∀ c ∈ s, validChar c) :
    utf8Decode (utf8Encode s) = some s :=
  utf8DecodeLoop_encode s _ hs le_rfl

/-- The encoding of a NUL-free code point contains no NUL byte. -/
theorem utf8EncodeChar_no_nul (c : Nat) (hc : c ≠ 0) : 0 ∉ utf8EncodeChar c := by
  unfold utf8EncodeChar
  split
  · simp
    omega
  · split
    · simp
      omega
    · split
      · simp
        omega
      · simp
        omega

/-- The encoding of a NUL-free string contains no NUL byte. -/
theorem utf8Encode_no_nul (s : List Nat) (hs : ∀ c ∈ s, c ≠ 0) :
    0 ∉ utf8Encode s := by
  induction s with
  | nil => simp [utf8Encode]
  | cons c cs ih =>
    rw [utf8Encode]
    simp only [List.mem_append, not_or]
    exact ⟨utf8EncodeChar_no_nul c (hs c (by simp)),
      ih (fun x hx => hs x (by simp [hx]))⟩

/-- `findNul` finds the terminator right after a NUL-free block. -/
theorem findNul_append (l suf : List Nat) (hl : 0 ∉ l) :
    findNul (l ++ 0 :: suf) = some l.length := by
  induction l with
  | nil => simp [findNul]
  | cons b t ih =>
    have hb : b ≠ 0 := fun h => hl (by simp [h])
    rw [List.cons_append, findNul, if_neg hb, ih (fun h => hl (by simp [h]))]
    rfl

/-- `findNul` fails on a NUL-free list. -/
theorem findNul_none (l : List Nat) (hl : 0 ∉ l) : findNul l = none := by
  induction l with
  | nil => rfl
  | cons b t ih =>
    have hb : b ≠ 0 := fun h => hl (by simp [h])
    rw [findNul, if_neg hb, ih (fun h => hl (by simp [h]))]
    rfl

/-- Reading a `write_string`-encoded value in place. -/
theorem get_string_at (p : SourcePacket) (pre suf s : List Nat)
    (hd : p.data = pre ++ cstr s ++ suf) (hp : p.pos = pre.length)
    (hs : ∀ c ∈ s, validChar c ∧ c ≠ 0) :
    p.get_string = (.ok s, ⟨p.data, pre.length + (utf8Encode s).length + 1⟩) := by
  have hnul : 0 ∉ utf8Encode s := utf8Encode_no_nul s (fun c hc => (hs c hc).2)
  have hdrop : p.data.drop p.pos = utf8Encode s ++ 0 :: suf := by
    rw [hd, hp, List.append_assoc, List.drop_left, cstr]
    simp
  unfold SourcePacket.get_string
  rw [hdrop, findNul_append _ _ hnul]
  simp only [List.take_left]
  rw [utf8_roundtrip s (fun c hc => (hs c hc).1)]
  cases p
  simp_all

/-- A string read past the end of the buffer fails with `ValueError` and
leaves the cursor unchanged. -/
theorem get_string_past_end (p : SourcePacket) (h : p.data.length ≤ p.pos) :
    p.get_string = (.error .valueError, p) := by
  unfold SourcePacket.get_string
  rw [List.drop_eq_nil_of_le h]
  rfl

/-- A fixed-width read at the very end of the buffer fails with
`struct.error` and leaves the cursor where it was. -/
theorem get_byte_past_end (p : SourcePacket) (h : p.data.length ≤ p.pos) :
    p.get_byte = (.error .structError, p) := by
  unfold SourcePacket.get_byte SourcePacket.read1
  rw [List.drop_eq_nil_of_le h]
  simp

/-! ## Write-side lemmas -/

theorem toLE2_expand (n : Nat) : toLE 2 n = [n % 256, n / 256 % 256] := by
  simp [toLE]

/-- Reading a `write_short`-encoded value in place. -/
theorem get_short_toLE2 (p : SourcePacket) (pre suf : List Nat) (v : Int)
    (hd : p.data = pre ++ toLE 2 (v % 65536).toNat ++ suf) (hp : p.pos = pre.length)
    (h1 : -32768 ≤ v) (h2 : v < 32768) :
    p.get_short = (.ok v, ⟨p.data, pre.length + 2⟩) := by
  rw [toLE2_expand] at hd
  rw [get_short_at p pre suf _ _ hd hp, ← toLE2_expand, fromLE_toLE2]
  have hlt : (v % 65536).toNat < 65536 := by omega
  rw [Nat.mod_eq_of_lt hlt, toSigned16_round v h1 h2]

/-- The buffer after `BytesIO.write` holds the written bytes at the old
cursor position. -/
theorem writeBytes_at (p : SourcePacket) (bs : List Nat) :
    ∃ pre suf, (p.writeBytes bs).data = pre ++ bs ++ suf ∧ pre.length = p.pos ∧
      (p.writeBytes bs).pos = p.pos + bs.length := by
  refine ⟨p.data.take p.pos ++ List.replicate (p.pos - p.data.length) 0,
    p.data.drop (p.pos + bs.length), ?_, ?_, rfl⟩
  · simp [SourcePacket.writeBytes, List.append_assoc]
  · simp [List.length_take]
    omega

/-- C4: For every supported wire type — byte, short, long, unsigned 64-bit,
float (as IEEE-754 bit pattern), and NUL-terminated string (including the
empty string and non-ASCII UTF-8 content) — reading with the matching
`get_*` immediately after `write_*`, from the cursor position the write
started at, returns the original value, for every value in the type's
range. -/
theorem codec_roundtrip :
    (∀ (p p₁ : SourcePacket) (v : Nat), v < 256 →
      p.write_byte v = .ok p₁ →
      (SourcePacket.mk p₁.data p.pos).get_byte = (.ok v, ⟨p₁.data, p.pos + 1⟩)) ∧
    (∀ (p p₁ : SourcePacket) (v : Int), -32768 ≤ v → v < 32768 →
      p.write_short v = .ok p₁ →
      (SourcePacket.mk p₁.data p.pos).get_short = (.ok v, ⟨p₁.data, p.pos + 2⟩)) ∧
    (∀ (p p₁ : SourcePacket) (v : Int), -2147483648 ≤ v → v < 2147483648 →
      p.write_long v = .ok p₁ →
      (SourcePacket.mk p₁.data p.pos).get_long = (.ok v, ⟨p₁.data, p.pos + 4⟩)) ∧
    (∀ (p p₁ : SourcePacket) (v : Nat), v < 18446744073709551616 →
      p.write_long_long v = .ok p₁ →
      (SourcePacket.mk p₁.data p.pos).get_long_long = (.ok v, ⟨p₁.data, p.pos + 8⟩)) ∧
    (∀ (p p₁ : SourcePacket) (v : Nat), v < 4294967296 →
      p.write_float v = .ok p₁ →
      (SourcePacket.mk p₁.data p.pos).get_float = (.ok v, ⟨p₁.data, p.pos + 4⟩)) ∧
    (∀ (p p₁ : SourcePacket) (s : List Nat), (∀ c ∈ s, validChar c ∧ c ≠ 0) →
      p.write_string s = .ok p₁ →
      (SourcePacket.mk p₁.data p.pos).get_string =
        (.ok s, ⟨p₁.data, p.pos + (utf8Encode s).length + 1⟩)) := by
  refine ⟨?_, ?_, ?_, ?_, ?_, ?_⟩
  · intro p p₁ v hv hw
    rw [SourcePacket.write_byte, if_pos hv] at hw
    obtain ⟨pre, suf, hd, hpre, _⟩ := writeBytes_at p [v]
    cases hw
    rw [get_byte_at ⟨(p.writeBytes [v]).data, p.pos⟩ pre suf v hd hpre.symm, hpre]
  · intro p p₁ v h1 h2 hw
    rw [SourcePacket.write_short, if_pos ⟨h1, h2⟩] at hw
    obtain ⟨pre, suf, hd, hpre, _⟩ := writeBytes_at p (toLE 2 (v % 65536).toNat)
    cases hw
    rw [get_short_toLE2 ⟨(p.writeBytes (toLE 2 (v % 65536).toNat)).data, p.pos⟩
      pre suf v hd hpre.symm h1 h2, hpre]
  · intro p p₁ v h1 h2 hw
    rw [SourcePacket.write_long, if_pos ⟨h1, h2⟩] at hw
    obtain ⟨pre, suf, hd, hpre, _⟩ := writeBytes_at p (int32LE v)
    cases hw
    rw [get_long_int32LE ⟨(p.writeBytes (int32LE v)).data, p.pos⟩
      pre suf v hd hpre.symm h1 h2, hpre]
  · intro p p₁ v hv hw
    rw [SourcePacket.write_long_long, if_pos hv] at hw
    obtain ⟨pre, suf, hd, hpre, _⟩ := writeBytes_at p (toLE 8 v)
    cases hw
    rw [get_long_long_toLE8 ⟨(p.writeBytes (toLE 8 v)).data, p.pos⟩
      pre suf v hd hpre.symm hv, hpre]
  · intro p p₁ v hv hw
    rw [SourcePacket.write_float, if_pos hv] at hw
    obtain ⟨pre, suf, hd, hpre, _⟩ := writeBytes_at p (toLE 4 v)
    cases hw
    rw [get_float_toLE4 ⟨(p.writeBytes (toLE 4 v)).data, p.pos⟩
      pre suf v hd hpre.symm hv, hpre]
  · intro p p₁ s hs hw
    rw [SourcePacket.write_string,
      if_pos (by simpa using fun c hc => (hs c hc).1)] at hw
    obtain ⟨pre, suf, hd, hpre, _⟩ := writeBytes_at p (utf8Encode s ++ [0])
    cases hw
    rw [get_string_at ⟨(p.writeBytes (utf8Encode s ++ [0])).data, p.pos⟩
      pre suf s hd hpre.symm hs, hpre]

/-- Witness for C4 at concrete values: 255 as a byte, −2 as a short,
−2147483648 as a long, 2^64−1 as an unsigned 64-bit, the bit pattern of
π as a float, a string with 1-, 2-, 3- and 4-byte UTF-8 characters, and the
empty string. -/
theorem codec_roundtrip_witness :
    (SourcePacket.mk [255] 0).get_byte = (.ok 255, ⟨[255], 1⟩) ∧
    (SourcePacket.mk [254, 255] 0).get_short = (.ok (-2), ⟨[254, 255], 2⟩) ∧
    (SourcePacket.mk [0, 0, 0, 128] 0).get_long =
      (.ok (-2147483648), ⟨[0, 0, 0, 128], 4⟩) ∧
    (SourcePacket.mk [255, 255, 255, 255, 255, 255, 255, 255] 0).get_long_long =
      (.ok 18446744073709551615, ⟨[255, 255, 255, 255, 255, 255, 255, 255], 8⟩) ∧
    (SourcePacket.mk [219, 15, 73, 64] 0).get_float =
      (.ok 1078530011, ⟨[219, 15, 73, 64], 4⟩) ∧
    (SourcePacket.mk [65, 195, 169, 228, 184, 173, 240, 159, 152, 128, 0] 0).get_string =
      (.ok [65, 233, 20013, 128512],
        ⟨[65, 195, 169, 228, 184, 173, 240, 159, 152, 128, 0], 11⟩) ∧
    (SourcePacket.mk [0] 0).get_string = (.ok [], ⟨[0], 1⟩) :=
  ⟨codec_roundtrip.1 ⟨[], 0⟩ ⟨[255], 1⟩ 255 (by decide) rfl,
   codec_roundtrip.2.1 ⟨[], 0⟩ ⟨[254, 255], 2⟩ (-2) (by decide) (by decide) rfl,
   codec_roundtrip.2.2.1 ⟨[], 0⟩ ⟨[0, 0, 0, 128], 4⟩ (-2147483648)
     (by decide) (by decide) rfl,
   codec_roundtrip.2.2.2.1 ⟨[], 0⟩ ⟨[255, 255, 255, 255, 255, 255, 255, 255], 8⟩
     18446744073709551615 (by decide) rfl,
   codec_roundtrip.2.2.2.2.1 ⟨[], 0⟩ ⟨[219, 15, 73, 64], 4⟩ 1078530011 (by decide) rfl,
   codec_roundtrip.2.2.2.2.2 ⟨[], 0⟩
     ⟨[65, 195, 169, 228, 184, 173, 240, 159, 152, 128, 0], 11⟩
     [65, 233, 20013, 128512] (by decide) rfl,
   codec_roundtrip.2.2.2.2.2 ⟨[], 0⟩ ⟨[0], 1⟩ [] (by decide) rfl⟩

/-! ## Reassembly lemmas -/

/-- Inserting a fresh key appends. -/
theorem pyDictInsert_fresh [DecidableEq α] (D : List (α × β)) (k : α) (v : β)
    (h : k ∉ D.map Prod.fst) : pyDictInsert D k v = D ++ [(k, v)] := by
  induction D with
  | nil => rfl
  | cons kv t ih =>
    have hk : kv.1 ≠ k := fun he => h (by simp [he])
    cases kv
    rw [pyDictInsert, if_neg hk, ih (fun he => h (by simp [he]))]
    rfl

/-- Lookup in a dict whose entries all agree with `pl`. -/
theorem pyDictFind_of_mem [DecidableEq α] (D : List (α × β)) (pl : α → β) (k : α)
    (hv : ∀ kv ∈ D, kv.2 = pl kv.1) (hk : k ∈ D.map Prod.fst) :
    pyDictFind D k = some (pl k) := by
  induction D with
  | nil => simp at hk
  | cons kv t ih =>
    cases kv with
    | mk k' v' =>
      rw [pyDictFind]
      by_cases hke : k' = k
      · rw [if_pos hke]
        have := hv (k', v') (by simp)
        simp at this
        rw [this, hke]
      · rw [if_neg hke]
        refine ih (fun x hx => hv x (by simp [hx])) ?_
        simp at hk
        rcases hk with h | h
        · exact absurd h.symm hke
        · simpa using h

/-- The concatenation loop succeeds when every requested index is present. -/
theorem combineLoop_ok (D : FragDict) (pl : Nat → List Nat) (l : List Nat)
    (acc : List Nat) (h : ∀ x ∈ l, pyDictFind D x = some (pl x)) :
    combineLoop D acc l = .ok (acc ++ (l.map pl).flatten) := by
  induction l generalizing acc with
  | nil => simp [combineLoop]
  | cons x xs ih =>
    rw [combineLoop, h x (by simp)]
    show combineLoop D (acc ++ pl x) xs = _
    rw [ih (acc ++ pl x) (fun y hy => h y (by simp [hy]))]
    simp

/-- `combine` of a dict whose keys are a permutation of `range n` and whose
values follow `pl` concatenates `pl 0, pl 1, …, pl (n-1)` in index order. -/
theorem combine_perm (D : FragDict) (pl : Nat → List Nat) (n : Nat)
    (hperm : (D.map Prod.fst).Perm (List.range n))
    (hv : ∀ kv ∈ D, kv.2 = pl kv.1) :
    combine D = .ok ((List.range n).map pl).flatten := by
  have hlen : D.length = n := by
    have := hperm.length_eq
    simpa using this
  rw [combine, hlen]
  have := combineLoop_ok D pl (List.range n) []
    (fun x hx => pyDictFind_of_mem D pl x hv (hperm.mem_iff.mpr hx))
  simpa using this

/-- One iteration of the split-collection loop on a well-formed fragment
datagram: the fragment's payload is stored under its index byte and the
loop either completes or waits for the next datagram.  (The `old_pid`
mismatch check cannot fire: the source never assigns `old_packet_id`.) -/
theorem splitLoop_step (fuel : Nat) (D : FragDict) (pid : Int) (total index : Nat)
    (payload : List Nat) (incoming : List (List Nat)) :
    splitLoop none (fuel + 1) D ⟨splitFragment pid total index payload, 0⟩ incoming =
      (if (pyDictInsert D index payload).length > total - 1 then
         match combine (pyDictInsert D index payload) with
         | .error e => .error e
         | .ok buf => .ok (⟨buf, 0⟩, incoming)
       else
         match incoming with
         | [] => .error .timeout
         | d :: rest =>
           splitLoop none fuel (pyDictInsert D index payload)
             ⟨d.take PACKET_SIZE, 0⟩ rest) := by
  have h2 : int32LE SPLIT = [254, 255, 255, 255] := by decide
  rw [splitLoop, splitFragment, h2]
  rw [show int32LE pid = toLE 4 ((pid % 4294967296).toNat) from rfl, toLE4_expand]
  simp only [List.cons_append, List.nil_append, List.append_assoc]
  simp [SourcePacket.get_long, SourcePacket.get_byte, SourcePacket.get_short,
    SourcePacket.read1]

/-- `receive` enters the split-collection loop on a fragment datagram. -/
theorem receive_split_entry (pid : Int) (total index : Nat) (payload : List Nat)
    (rest : List (List Nat)) (hlen : payload.length ≤ 1388) :
    receive (splitFragment pid total index payload :: rest) =
      splitLoop none (rest.length + 1) []
        ⟨splitFragment pid total index payload, 0⟩ rest := by
  have htake : (splitFragment pid total index payload).take PACKET_SIZE =
      splitFragment pid total index payload := by
    refine List.take_of_length_le ?_
    simp [splitFragment, PACKET_SIZE, int32LE_length]
    omega
  have h2 : int32LE SPLIT = [254, 255, 255, 255] := by decide
  rw [receive, htake]
  have hgl : (SourcePacket.mk (splitFragment pid total index payload) 0).get_long =
      (.ok (-2), ⟨splitFragment pid total index payload, 4⟩) := by
    rw [get_long_at _ [] (int32LE pid ++ [total, index] ++ [0, 0] ++ payload)
      254 255 255 255 (by rw [splitFragment, h2]; simp [List.append_assoc]) rfl]
    norm_num [fromLE, toSigned32]
  rw [hgl]
  norm_num [WHOLE]

/-- A well-formed fragment datagram below `PACKET_SIZE` survives `recv`'s
truncation. -/
theorem splitFragment_take (pid : Int) (total index : Nat) (payload : List Nat)
    (h : payload.length ≤ 1388) :
    (splitFragment pid total index payload).take PACKET_SIZE =
      splitFragment pid total index payload := by
  refine List.take_of_length_le ?_
  simp [splitFragment, PACKET_SIZE, int32LE_length]
  omega

/-- Running the collection loop over fragments of one logical packet, with
the still-missing indices `j :: todo` arriving in that order: the loop ends
with the payloads concatenated in index order. -/
theorem splitLoop_collects (todo : List Nat) : ∀ (fuel : Nat) (D : FragDict)
    (j n : Nat) (pid : Int) (pl : Nat → List Nat),
    (∀ kv ∈ D, kv.2 = pl kv.1) →
    ((D.map Prod.fst) ++ j :: todo).Perm (List.range n) →
    (∀ i, i < n → (pl i).length ≤ 1388) →
    todo.length + 1 ≤ fuel →
    splitLoop none fuel D ⟨splitFragment pid n j (pl j), 0⟩
      (todo.map fun i => splitFragment pid n i (pl i)) =
      .ok (⟨((List.range n).map pl).flatten, 0⟩, []) := by
  induction todo with
  | nil =>
    intro fuel D j n pid pl hv hperm hlen hfuel
    obtain ⟨f, rfl⟩ : ∃ f, fuel = f + 1 := by
      cases fuel
      · omega
      · exact ⟨_, rfl⟩
    have hnd : ((D.map Prod.fst) ++ [j]).Nodup :=
      hperm.nodup_iff.mpr (List.nodup_range n)
    have hj : j ∉ D.map Prod.fst := by
      intro hmem
      exact (List.disjoint_of_nodup_append hnd) hmem (by simp)
    have hfresh : pyDictInsert D j (pl j) = D ++ [(j, pl j)] :=
      pyDictInsert_fresh D j (pl j) hj
    have hkeys : ((pyDictInsert D j (pl j)).map Prod.fst).Perm (List.range n) := by
      rw [hfresh]
      simpa using hperm
    have hlenD : (pyDictInsert D j (pl j)).length = n := by
      have := hkeys.length_eq
      simpa using this
    have hn : 0 < n := by
      rw [← hlenD, hfresh]
      simp
    rw [splitLoop_step, if_pos (by omega),
      combine_perm (pyDictInsert D j (pl j)) pl n hkeys ?_]
    · simp
    · intro kv hkv
      rw [hfresh] at hkv
      rcases List.mem_append.mp hkv with h | h
      · exact hv kv h
      · simp at h
        rw [h]
  | cons t ts ih =>
    intro fuel D j n pid pl hv hperm hlen hfuel
    obtain ⟨f, rfl⟩ : ∃ f, fuel = f + 1 := by
      cases fuel
      · omega
      · exact ⟨_, rfl⟩
    have hnd : ((D.map Prod.fst) ++ j :: t :: ts).Nodup :=
      hperm.nodup_iff.mpr (List.nodup_range n)
    have hj : j ∉ D.map Prod.fst := by
      intro hmem
      exact (List.disjoint_of_nodup_append hnd) hmem (by simp)
    have hfresh : pyDictInsert D j (pl j) = D ++ [(j, pl j)] :=
      pyDictInsert_fresh D j (pl j) hj
    have hlens : D.length + 1 + (ts.length + 1) = n := by
      have := hperm.length_eq
      simp at this
      omega
    have ht : t < n := by
      have : t ∈ List.range n := hperm.mem_iff.mp (by simp)
      simpa using this
    rw [List.map_cons, splitLoop_step, if_neg (by rw [hfresh]; simp; omega)]
    show splitLoop none f (pyDictInsert D j (pl j))
        ⟨(splitFragment pid n t (pl t)).take PACKET_SIZE, 0⟩
        (List.map (fun i => splitFragment pid n i (pl i)) ts) = _
    rw [splitFragment_take pid n t (pl t) (hlen t ht)]
    refine ih f (pyDictInsert D j (pl j)) t n pid pl ?_ ?_ hlen (by simpa using hfuel)
    · intro kv hkv
      rw [hfresh] at hkv
      rcases List.mem_append.mp hkv with h | h
      · exact hv kv h
      · simp at h
        rw [h]
    · rw [hfresh]
      simpa using hperm

/-- C6: for every split response whose fragments (one per index `0..n-1`,
sharing one packet id) arrive in any order, the reassembled buffer is the
concatenation of the fragment payloads in index order, with the cursor
rewound to the start and all datagrams consumed. -/
theorem receive_reassembles_in_index_order (n : Nat) (pid : Int)
    (pl : Nat → List Nat) (perm : List Nat) (hn : 0 < n) (hn2 : n < 256)
    (hperm : perm.Perm (List.range n))
    (hlen : ∀ i, i < n → (pl i).length ≤ 1388) :
    receive (perm.map fun i => splitFragment pid n i (pl i)) =
      .ok (⟨((List.range n).map pl).flatten, 0⟩, []) := by
  cases perm with
  | nil =>
    have := hperm.length_eq
    simp at this
    omega
  | cons j todo =>
    have hj : j < n := by
      have : j ∈ List.range n := hperm.mem_iff.mp (by simp)
      simpa using this
    rw [List.map_cons, receive_split_entry pid n j (pl j) _ (hlen j hj)]
    rw [show (todo.map fun i => splitFragment pid n i (pl i)).length = todo.length by
      simp]
    exact splitLoop_collects todo (todo.length + 1) [] j n pid pl (by simp)
      (by simpa using hperm) hlen le_rfl

/-- Witness for C6: two fragments arriving in reverse index order. -/
theorem receive_reassembles_witness :
    receive [splitFragment 7 2 1 [103, 104], splitFragment 7 2 0 [101, 102]] =
      .ok (⟨[101, 102, 103, 104], 0⟩, []) := by
  have h := receive_reassembles_in_index_order 2 7
    (fun i => [101 + 2 * i, 102 + 2 * i]) [1, 0] (by decide) (by decide)
    (by decide) (by intro i hi; simp)
  simpa using h

/-- Concatenating a two-fragment dict. -/
theorem combine_two (x y : List Nat) : combine [(0, x), (1, y)] = .ok (x ++ y) := by
  show combineLoop [(0, x), (1, y)] [] (List.range 2) = _
  rw [show List.range 2 = [0, 1] from by decide]
  simp [combineLoop, pyDictFind]

/-- C1 (divergence witness): two split fragments carrying different packet
ids are silently combined by `receive` — the mismatch branch can never fire
because `old_packet_id` is initialised to `None` and never reassigned —
where the claim requires an immediate `QueryError`. -/
theorem receive_mismatched_ids_combined (pid1 pid2 : Int) (a b : List Nat)
    (_hne : pid1 ≠ pid2) (ha : a.length ≤ 1388) (hb : b.length ≤ 1388) :
    receive [splitFragment pid1 2 0 a, splitFragment pid2 2 1 b] =
      .ok (⟨a ++ b, 0⟩, []) := by
  rw [receive_split_entry pid1 2 0 a _ ha, splitLoop_step,
    if_neg (by simp [pyDictInsert])]
  show splitLoop none (List.length [splitFragment pid2 2 1 b]) (pyDictInsert [] 0 a)
      ⟨(splitFragment pid2 2 1 b).take PACKET_SIZE, 0⟩ [] = _
  rw [splitFragment_take pid2 2 1 b hb,
    show List.length [splitFragment pid2 2 1 b] = 0 + 1 from rfl,
    splitLoop_step, if_pos (by simp [pyDictInsert])]
  rw [show pyDictInsert (pyDictInsert [] 0 a) 1 b = [(0, a), (1, b)] from by
    simp [pyDictInsert]]
  rw [combine_two]

/-- Witness for C1's divergence theorem at concrete fragments with packet
ids 1 and 2. -/
theorem receive_mismatched_ids_combined_witness :
    receive [splitFragment 1 2 0 [170], splitFragment 2 2 1 [187]] =
      .ok (⟨[170, 187], 0⟩, []) :=
  receive_mismatched_ids_combined 1 2 [170] [187] (by decide) (by decide) (by decide)

/-- C9 (counterexample): fragment index 0 is referenced twice with different
content (`[1, 2]` then `[9, 9]`), yet `receive` succeeds, returning a buffer
built from the *second* content — the duplicate is silently overwritten, not
rejected. -/
theorem receive_duplicate_not_rejected :
    receive [splitFragment 5 2 0 [1, 2], splitFragment 5 2 0 [9, 9],
      splitFragment 5 2 1 [3]] = .ok (⟨[9, 9, 3], 0⟩, []) := by
  rfl

/-- C9 (amended): a fragment index arriving twice is not rejected; the later
arrival overwrites the earlier content in the fragment store, and reassembly
completes with the overwriting content. -/
theorem receive_duplicate_overwrites (pid : Int) (a b c : List Nat)
    (ha : a.length ≤ 1388) (hb : b.length ≤ 1388) (hc : c.length ≤ 1388) :
    receive [splitFragment pid 2 0 a, splitFragment pid 2 0 b,
      splitFragment pid 2 1 c] = .ok (⟨b ++ c, 0⟩, []) := by
  rw [receive_split_entry pid 2 0 a _ ha, splitLoop_step,
    if_neg (by simp [pyDictInsert])]
  show splitLoop none
      (List.length [splitFragment pid 2 0 b, splitFragment pid 2 1 c])
      (pyDictInsert [] 0 a)
      ⟨(splitFragment pid 2 0 b).take PACKET_SIZE, 0⟩
      [splitFragment pid 2 1 c] = _
  rw [splitFragment_take pid 2 0 b hb,
    show List.length [splitFragment pid 2 0 b, splitFragment pid 2 1 c] =
      List.length [splitFragment pid 2 1 c] + 1 from rfl,
    splitLoop_step, if_neg (by simp [pyDictInsert])]
  show splitLoop none (List.length [splitFragment pid 2 1 c])
      (pyDictInsert (pyDictInsert [] 0 a) 0 b)
      ⟨(splitFragment pid 2 1 c).take PACKET_SIZE, 0⟩ [] = _
  rw [splitFragment_take pid 2 1 c hc,
    show List.length [splitFragment pid 2 1 c] = 0 + 1 from rfl,
    splitLoop_step, if_pos (by simp [pyDictInsert])]
  rw [show pyDictInsert (pyDictInsert (pyDictInsert [] 0 a) 0 b) 1 c =
      [(0, b), (1, c)] from by simp [pyDictInsert]]
  rw [combine_two]

/-- Witness for C9's amended theorem at concrete fragments. -/
theorem receive_duplicate_overwrites_witness :
    receive [splitFragment 5 2 0 [1, 2], splitFragment 5 2 0 [9, 9],
      splitFragment 5 2 1 [3]] = .ok (⟨[9, 9] ++ [3], 0⟩, []) :=
  receive_duplicate_overwrites 5 [1, 2] [9, 9] [3] (by decide) (by decide) (by decide)

/-- The request datagram `Query.send` builds for a truthy integer payload:
WHOLE marker, header byte, then the 4-byte little-endian signed challenge. -/
theorem buildRequest_int (header : Nat) (c : Int) (hh : header < 256)
    (h0 : c ≠ 0) (h1 : -2147483648 ≤ c) (h2 : c < 2147483648) :
    buildRequest header (some (.int c)) =
      .ok ([255, 255, 255, 255] ++ [header] ++ int32LE c) := by
  have hm : int32LE WHOLE = [255, 255, 255, 255] := by decide
  have ht : payloadTruthy (.int c) = true := by simp [payloadTruthy, h0]
  have hl4 : (int32LE c).length = 4 := int32LE_length c
  simp only [buildRequest, SourcePacket.write_long, if_pos (by decide :
    -2147483648 ≤ WHOLE ∧ WHOLE < 2147483648), hm]
  simp only [SourcePacket.writeBytes]
  norm_num
  simp only [SourcePacket.write_byte, if_pos hh, SourcePacket.writeBytes]
  norm_num
  simp only [ht, if_pos (And.intro h1 h2), SourcePacket.write_long,
    if_pos (And.intro h1 h2), SourcePacket.writeBytes]
  simp only [bind, Except.bind]
  simp [hl4]

/-- C3 (counterexample): with challenge value 0 the built datagram is only
the 5 marker/header bytes — `if payload:` treats the integer 0 as absent,
so no 4-byte challenge field is appended (the same happens for both the
rules and the players header). -/
theorem buildRequest_zero_challenge :
    buildRequest A2S_RULES_HEADER (some (.int 0)) = .ok [255, 255, 255, 255, 86] ∧
    buildRequest A2S_PLAYERS_HEADER (some (.int 0)) = .ok [255, 255, 255, 255, 85] :=
  ⟨rfl, rfl⟩

/-- C3 (amended): for every *nonzero* 32-bit challenge value — in particular
−1 on the first attempt — the A2S_RULES / A2S_PLAYERS request datagram is
exactly the 4-byte WHOLE marker, the header byte (`'V'` = 86 for rules,
`'U'` = 85 for players), and the 4-byte little-endian signed challenge. -/
theorem buildRequest_format (c : Int) (h0 : c ≠ 0) (h1 : -2147483648 ≤ c)
    (h2 : c < 2147483648) :
    buildRequest A2S_RULES_HEADER (some (.int c)) =
      .ok ([255, 255, 255, 255] ++ [86] ++ int32LE c) ∧
    buildRequest A2S_PLAYERS_HEADER (some (.int c)) =
      .ok ([255, 255, 255, 255] ++ [85] ++ int32LE c) ∧
    (int32LE c).length = 4 :=
  ⟨buildRequest_int 86 c (by decide) h0 h1 h2,
   buildRequest_int 85 c (by decide) h0 h1 h2, int32LE_length c⟩

/-- Witness for C3's amended theorem at the first-attempt challenge −1. -/
theorem buildRequest_format_witness :
    buildRequest A2S_RULES_HEADER (some (.int (-1))) =
      .ok [255, 255, 255, 255, 86, 255, 255, 255, 255] ∧
    buildRequest A2S_PLAYERS_HEADER (some (.int (-1))) =
      .ok [255, 255, 255, 255, 85, 255, 255, 255, 255] := by
  have h := buildRequest_format (-1) (by decide) (by decide) (by decide)
  exact ⟨by rw [h.1]; rfl, by rw [h.2.1]; rfl⟩

/-- `receive` on a WHOLE-marked datagram returns it rewound, consuming
nothing further. -/
theorem receive_whole (t : List Nat) (rest : List (List Nat))
    (hlen : 4 + t.length ≤ 1400) :
    receive (([255, 255, 255, 255] ++ t) :: rest) =
      .ok (⟨[255, 255, 255, 255] ++ t, 0⟩, rest) := by
  have htake : ([255, 255, 255, 255] ++ t).take PACKET_SIZE =
      [255, 255, 255, 255] ++ t := by
    refine List.take_of_length_le ?_
    simp [PACKET_SIZE]
    omega
  rw [receive, htake]
  rw [get_long_at _ [] t 255 255 255 255 rfl rfl]
  norm_num [WHOLE, fromLE, toSigned32]

/-- C2 (counterexample): an A2S_PLAYERS query whose *first* response already
carries the players data header `'D'` (68) is **not** short-circuited: the
engine compares against the literal `'E'` (69) only, misreads the next four
payload bytes as a challenge number, sends a *second* request, and returns
the second response — where the claim requires the first packet back with
no second request. -/
theorem receive_challenge_players_direct_answer :
    receive_challenge A2S_PLAYERS_HEADER
      [[255, 255, 255, 255, 68, 1, 0, 0, 0], [255, 255, 255, 255, 68, 9]] =
      (.ok ⟨[255, 255, 255, 255, 68, 9], 0⟩,
       [[255, 255, 255, 255, 85, 255, 255, 255, 255],
        [255, 255, 255, 255, 85, 1, 0, 0, 0]]) := by
  rfl

/-- C2 (amended): the short-circuit triggers exactly when the first
response's header byte is `'E'` (69) — the A2S_RULES data header.  In that
case, for either query header, the first packet is rewound and returned and
only the one initial request is ever sent. -/
theorem receive_challenge_short_circuit (header : Nat) (t : List Nat)
    (rest : List (List Nat)) (hh : header < 256) (hlen : 5 + t.length ≤ 1400) :
    receive_challenge header (([255, 255, 255, 255, 69] ++ t) :: rest) =
      (.ok ⟨[255, 255, 255, 255, 69] ++ t, 0⟩,
       [[255, 255, 255, 255, header, 255, 255, 255, 255]]) := by
  have hreq : buildRequest header (some (.int CHALLENGE_NUMBER_REQUEST)) =
      .ok [255, 255, 255, 255, header, 255, 255, 255, 255] := by
    have h := buildRequest_int header (-1) hh (by decide) (by decide) (by decide)
    rw [show CHALLENGE_NUMBER_REQUEST = -1 from rfl, h]
    rfl
  have hd : [255, 255, 255, 255, 69] ++ t = [255, 255, 255, 255] ++ (69 :: t) := by
    simp
  have hrecv : receive (([255, 255, 255, 255, 69] ++ t) :: rest) =
      .ok (⟨[255, 255, 255, 255, 69] ++ t, 0⟩, rest) := by
    rw [hd, receive_whole (69 :: t) rest (by simp only [List.length_cons]; omega)]
  have hgl : (⟨[255, 255, 255, 255, 69] ++ t, 0⟩ : SourcePacket).get_long =
      (.ok (-1), ⟨[255, 255, 255, 255, 69] ++ t, 4⟩) := by
    rw [get_long_at _ [] (69 :: t) 255 255 255 255 (by simp) rfl]
    norm_num [fromLE, toSigned32]
  have hgb : (⟨[255, 255, 255, 255, 69] ++ t, 4⟩ : SourcePacket).get_byte =
      (.ok 69, ⟨[255, 255, 255, 255, 69] ++ t, 5⟩) := by
    have := get_byte_at ⟨[255, 255, 255, 255, 69] ++ t, 4⟩ [255, 255, 255, 255] t 69
      (by simp) rfl
    simpa using this
  rw [receive_challenge, hreq, hrecv]
  simp only [hgl, hgb]
  rfl

/-- Witness for C2's amended theorem: a rules query answered directly with
header `'E'`. -/
theorem receive_challenge_short_circuit_witness :
    receive_challenge A2S_RULES_HEADER [[255, 255, 255, 255, 69, 42]] =
      (.ok ⟨[255, 255, 255, 255, 69, 42], 0⟩,
       [[255, 255, 255, 255, 86, 255, 255, 255, 255]]) := by
  have h := receive_challenge_short_circuit 86 [42] [] (by decide) (by decide)
  simpa using h

/-! ## Info decoder lemmas -/

/-- The fixed part of the info decode leaves every EDF-gated field absent. -/
theorem infoFixed_optionals (packet : SourcePacket) (r : InfoRecord)
    (p : SourcePacket) (h : infoFixed packet = .ok (r, p)) :
    r.port = none ∧ r.steamid = none ∧ r.sourcetv_port = none ∧
    r.sourcetv_name = none ∧ r.keywords = none ∧ r.gameid = none := by
  unfold infoFixed at h
  simp only [bind, Except.bind, orErr, pure, Except.pure] at h
  repeat' split at h
  all_goals simp_all
  exact ⟨h.1.symm ▸ rfl, h.1.symm ▸ rfl, h.1.symm ▸ rfl, h.1.symm ▸ rfl,
    h.1.symm ▸ rfl, h.1.symm ▸ rfl⟩

/-- `edfPort` populates `port` exactly when bit 0x80 is set, and touches
nothing else. -/
theorem edfPort_spec (r : InfoRecord) (p : SourcePacket) (r' : InfoRecord)
    (p' : SourcePacket) (hnone : r.port = none) (h : edfPort r p = .ok (r', p')) :
    (r'.port.isSome ↔ r.edf &&& 128 ≠ 0) ∧ r'.steamid = r.steamid ∧
    r'.sourcetv_port = r.sourcetv_port ∧ r'.sourcetv_name = r.sourcetv_name ∧
    r'.keywords = r.keywords ∧ r'.gameid = r.gameid ∧ r'.edf = r.edf := by
  unfold edfPort at h
  split at h
  · split at h
    · cases h
    · cases h
      simp_all
  · cases h
    simp_all

/-- `edfSteamid` populates `steamid` exactly when bit 0x10 is set. -/
theorem edfSteamid_spec (r : InfoRecord) (p : SourcePacket) (r' : InfoRecord)
    (p' : SourcePacket) (hnone : r.steamid = none)
    (h : edfSteamid r p = .ok (r', p')) :
    (r'.steamid.isSome ↔ r.edf &&& 16 ≠ 0) ∧ r'.port = r.port ∧
    r'.sourcetv_port = r.sourcetv_port ∧ r'.sourcetv_name = r.sourcetv_name ∧
    r'.keywords = r.keywords ∧ r'.gameid = r.gameid ∧ r'.edf = r.edf := by
  unfold edfSteamid at h
  split at h
  · split at h
    · cases h
    · cases h
      simp_all
  · cases h
    simp_all

/-- `edfSourcetv` populates both SourceTV fields exactly when bit 0x40 is
set. -/
theorem edfSourcetv_spec (r : InfoRecord) (p : SourcePacket) (r' : InfoRecord)
    (p' : SourcePacket) (hnone : r.sourcetv_port = none)
    (hnone2 : r.sourcetv_name = none) (h : edfSourcetv r p = .ok (r', p')) :
    (r'.sourcetv_port.isSome ↔ r.edf &&& 64 ≠ 0) ∧
    (r'.sourcetv_name.isSome ↔ r.edf &&& 64 ≠ 0) ∧ r'.port = r.port ∧
    r'.steamid = r.steamid ∧ r'.keywords = r.keywords ∧
    r'.gameid = r.gameid ∧ r'.edf = r.edf := by
  unfold edfSourcetv at h
  split at h
  · split at h
    · cases h
    · split at h
      · cases h
      · cases h
        simp_all
  · cases h
    simp_all

/-- `edfKeywords` populates `keywords` exactly when bit 0x20 is set. -/
theorem edfKeywords_spec (r : InfoRecord) (p : SourcePacket) (r' : InfoRecord)
    (p' : SourcePacket) (hnone : r.keywords = none)
    (h : edfKeywords r p = .ok (r', p')) :
    (r'.keywords.isSome ↔ r.edf &&& 32 ≠ 0) ∧ r'.port = r.port ∧
    r'.steamid = r.steamid ∧ r'.sourcetv_port = r.sourcetv_port ∧
    r'.sourcetv_name = r.sourcetv_name ∧ r'.gameid = r.gameid ∧
    r'.edf = r.edf := by
  unfold edfKeywords at h
  split at h
  · split at h
    · cases h
    · cases h
      simp_all
  · cases h
    simp_all

/-- `edfGameid` populates `gameid` exactly when bit 0x01 is set. -/
theorem edfGameid_spec (r : InfoRecord) (p : SourcePacket) (r' : InfoRecord)
    (p' : SourcePacket) (hnone : r.gameid = none)
    (h : edfGameid r p = .ok (r', p')) :
    (r'.gameid.isSome ↔ r.edf &&& 1 ≠ 0) ∧ r'.port = r.port ∧
    r'.steamid = r.steamid ∧ r'.sourcetv_port = r.sourcetv_port ∧
    r'.sourcetv_name = r.sourcetv_name ∧ r'.keywords = r.keywords ∧
    r'.edf = r.edf := by
  unfold edfGameid at h
  split at h
  · split at h
    · cases h
    · cases h
      simp_all
  · cases h
    simp_all

/-- C5: for every value of the EDF byte, the record decoded by `info`
contains exactly the optional fields whose EDF bit is set — 0x80 gives
`port`, 0x10 gives `steamid`, 0x40 gives `sourcetv_port` and
`sourcetv_name`, 0x20 gives `keywords`, 0x01 gives `gameid` (read in that
fixed order by `infoExtra`); fields of unset bits stay absent (`none`). -/
theorem info_edf_gating (p : SourcePacket) (r : InfoRecord)
    (h : infoDecode p = .ok r) :
    (r.port.isSome ↔ r.edf &&& 128 ≠ 0) ∧
    (r.steamid.isSome ↔ r.edf &&& 16 ≠ 0) ∧
    (r.sourcetv_port.isSome ↔ r.edf &&& 64 ≠ 0) ∧
    (r.sourcetv_name.isSome ↔ r.edf &&& 64 ≠ 0) ∧
    (r.keywords.isSome ↔ r.edf &&& 32 ≠ 0) ∧
    (r.gameid.isSome ↔ r.edf &&& 1 ≠ 0) := by
  unfold infoDecode at h
  cases hf : infoFixed p with
  | error e =>
    rw [hf] at h
    simp [bind, Except.bind] at h
  | ok q =>
    obtain ⟨r0, p0⟩ := q
    rw [hf] at h
    simp only [bind, Except.bind] at h
    obtain ⟨h1, h2, h3, h4, h5, h6⟩ := infoFixed_optionals p r0 p0 hf
    unfold infoExtra at h
    split at h
    · simp only [bind, Except.bind] at h
      cases ha : edfPort r0 p0 with
      | error e => simp [ha] at h
      | ok q1 =>
        obtain ⟨r1, p1⟩ := q1
        simp only [ha] at h
        cases hb : edfSteamid r1 p1 with
        | error e => simp [hb] at h
        | ok q2 =>
          obtain ⟨r2, p2⟩ := q2
          simp only [hb] at h
          cases hc : edfSourcetv r2 p2 with
          | error e => simp [hc] at h
          | ok q3 =>
            obtain ⟨r3, p3⟩ := q3
            simp only [hc] at h
            cases hd : edfKeywords r3 p3 with
            | error e => simp [hd] at h
            | ok q4 =>
              obtain ⟨r4, p4⟩ := q4
              simp only [hd] at h
              cases he : edfGameid r4 p4 with
              | error e => simp [he] at h
              | ok q5 =>
                obtain ⟨r5, p5⟩ := q5
                simp only [he, pure, Except.pure, Except.ok.injEq] at h
                subst h
                obtain ⟨s1a, s1b, s1c, s1d, s1e, s1f, s1g⟩ :=
                  edfPort_spec r0 p0 r1 p1 h1 ha
                obtain ⟨s2a, s2b, s2c, s2d, s2e, s2f, s2g⟩ :=
                  edfSteamid_spec r1 p1 r2 p2 (by rw [s1b, h2]) hb
                obtain ⟨s3a, s3b, s3c, s3d, s3e, s3f, s3g⟩ :=
                  edfSourcetv_spec r2 p2 r3 p3 (by rw [s2c, s1c, h3])
                    (by rw [s2d, s1d, h4]) hc
                obtain ⟨s4a, s4b, s4c, s4d, s4e, s4f, s4g⟩ :=
                  edfKeywords_spec r3 p3 r4 p4 (by rw [s3e, s2e, s1e, h5]) hd
                obtain ⟨s5a, s5b, s5c, s5d, s5e, s5f, s5g⟩ :=
                  edfGameid_spec r4 p4 r5 p5 (by rw [s4f, s3f, s2f, s1f, h6]) he
                refine ⟨?_, ?_, ?_, ?_, ?_, ?_⟩
                · rw [s5b, s4b, s3c, s2b, s5g, s4g, s3g, s2g, s1g]
                  exact s1a
                · rw [s5c, s4c, s3d, s5g, s4g, s3g, s2g]
                  exact s2a
                · rw [s5d, s4d, s5g, s4g, s3g]
                  exact s3a
                · rw [s5e, s4e, s5g, s4g, s3g]
                  exact s3b
                · rw [s5f, s5g, s4g]
                  exact s4a
                · rw [s5g]
                  exact s5a
    · rename_i hz
      simp only [Decidable.not_not] at hz
      simp only [pure, Except.pure, Except.ok.injEq] at h
      subst h
      simp [h1, h2, h3, h4, h5, h6, hz]

/-- A concrete A2S_INFO response: protocol 17, single-character strings,
`server_type` `'d'`, `environment` `'l'`, public, VAC-secured, EDF = 0x11
(SteamID 2 and game id 3 present; everything else absent). -/
def infoSampleBytes : List Nat :=
  [255, 255, 255, 255, 73, 17, 65, 0, 66, 0, 67, 0, 68, 0, 10, 0, 5, 10, 0,
   100, 108, 0, 1, 49, 0, 17, 2, 0, 0, 0, 0, 0, 0, 0, 3, 0, 0, 0, 0, 0, 0, 0]

/-- The record `info` decodes from `infoSampleBytes`. -/
def infoSampleRec : InfoRecord :=
  ((infoDecode ⟨infoSampleBytes, 0⟩).toOption).getD default

/-- Witness for C5 at the concrete EDF = 0x11 packet. -/
theorem info_edf_gating_witness :
    (infoSampleRec.port.isSome ↔ infoSampleRec.edf &&& 128 ≠ 0) ∧
    (infoSampleRec.steamid.isSome ↔ infoSampleRec.edf &&& 16 ≠ 0) ∧
    (infoSampleRec.sourcetv_port.isSome ↔ infoSampleRec.edf &&& 64 ≠ 0) ∧
    (infoSampleRec.sourcetv_name.isSome ↔ infoSampleRec.edf &&& 64 ≠ 0) ∧
    (infoSampleRec.keywords.isSome ↔ infoSampleRec.edf &&& 32 ≠ 0) ∧
    (infoSampleRec.gameid.isSome ↔ infoSampleRec.edf &&& 1 ≠ 0) :=
  info_edf_gating ⟨infoSampleBytes, 0⟩ infoSampleRec (by rfl)

/-! ## Players decoder lemmas -/

/-- The slot loop always yields exactly as many entries as requested. -/
theorem playersLoop_length (k : Nat) : ∀ (p : SourcePacket) (x : Nat),
    (playersLoop p x k).length = k := by
  induction k with
  | zero => intro p x; rfl
  | succ k ih =>
    intro p x
    rw [playersLoop]
    cases playerSlot p with
    | mk res p' =>
      cases res with
      | ok v =>
        obtain ⟨i, nm, sc, du⟩ := v
        simp [ih]
      | error e => simp [ih]

/-- Every slot of the loop's output is either a full record or the bare
number of its own position. -/
theorem playersLoop_shape (k : Nat) : ∀ (p : SourcePacket) (x j : Nat), j < k →
    (∃ i nm sc du, (playersLoop p x k).get? j = some (.full i nm sc du)) ∨
    (playersLoop p x k).get? j = some (.bare (x + j)) := by
  induction k with
  | zero => intro p x j hj; omega
  | succ k ih =>
    intro p x j hj
    rw [playersLoop]
    cases hs : playerSlot p with
    | mk res p' =>
      cases res with
      | ok v =>
        obtain ⟨i, nm, sc, du⟩ := v
        cases j with
        | zero => exact .inl ⟨i, nm, sc, du, rfl⟩
        | succ j' =>
          have := ih p' (x + 1) j' (by omega)
          rcases this with ⟨i', nm', sc', du', hh⟩ | hh
          · exact .inl ⟨i', nm', sc', du', by simpa using hh⟩
          · refine .inr ?_
            have harith : x + 1 + j' = x + (j' + 1) := by omega
            simp only [List.get?_cons_succ]
            rw [hh, harith]
      | error e =>
        cases j with
        | zero => exact .inr (by simp)
        | succ j' =>
          have := ih p' (x + 1) j' (by omega)
          rcases this with ⟨i', nm', sc', du', hh⟩ | hh
          · exact .inl ⟨i', nm', sc', du', by simpa using hh⟩
          · refine .inr ?_
            have harith : x + 1 + j' = x + (j' + 1) := by omega
            simp only [List.get?_cons_succ]
            rw [hh, harith]

/-- C10: whenever the players preamble (leading long, header byte, count
byte) is readable, `players` succeeds, the result has exactly the advertised
count-byte's number of entries, and every entry is either a full
`{index, name, score, duration}` record or the bare integer equal to its own
0-based position. -/
theorem players_decode_shape (d : List Nat) (h6 : 6 ≤ d.length) :
    ∃ l, playersDecode ⟨d, 0⟩ = .ok l ∧
      l.length = d.get ⟨5, by omega⟩ ∧
      ∀ (j : Nat) (hj : j < l.length),
        (∃ i nm sc du, l.get ⟨j, hj⟩ = .full i nm sc du) ∨
        l.get ⟨j, hj⟩ = .bare j := by
  rcases d with _ | ⟨b0, _ | ⟨b1, _ | ⟨b2, _ | ⟨b3, _ | ⟨b4, _ | ⟨b5, rest⟩⟩⟩⟩⟩⟩ <;>
    simp at h6
  refine ⟨playersLoop ⟨b0 :: b1 :: b2 :: b3 :: b4 :: b5 :: rest, 6⟩ 0 b5, ?_, ?_, ?_⟩
  · simp [playersDecode, orErr, SourcePacket.get_long, SourcePacket.get_byte,
      SourcePacket.read1, bind, Except.bind, pure, Except.pure]
  · rw [playersLoop_length]
    rfl
  · intro j hj
    rw [playersLoop_length] at hj
    have := playersLoop_shape b5 ⟨b0 :: b1 :: b2 :: b3 :: b4 :: b5 :: rest, 6⟩ 0 j hj
    have hget : (playersLoop ⟨b0 :: b1 :: b2 :: b3 :: b4 :: b5 :: rest, 6⟩ 0 b5).get?
        j = some ((playersLoop ⟨b0 :: b1 :: b2 :: b3 :: b4 :: b5 :: rest, 6⟩ 0 b5).get
          ⟨j, by rw [playersLoop_length]; exact hj⟩) :=
      List.get?_eq_get _
    rcases this with ⟨i, nm, sc, du, hh⟩ | hh
    · refine .inl ⟨i, nm, sc, du, ?_⟩
      rw [hget] at hh
      simpa using hh
    · refine .inr ?_
      rw [hget] at hh
      simpa using hh

/-- Witness for C10: a players response advertising 2 players with no player
data at all — both slots come back as bare markers 0 and 1. -/
theorem players_decode_shape_witness :
    ∃ l, playersDecode ⟨[255, 255, 255, 255, 68, 2], 0⟩ = .ok l ∧
      l.length = 2 ∧
      ∀ (j : Nat) (hj : j < l.length),
        (∃ i nm sc du, l.get ⟨j, hj⟩ = .full i nm sc du) ∨
        l.get ⟨j, hj⟩ = .bare j := by
  have h := players_decode_shape [255, 255, 255, 255, 68, 2] (by decide)
  simpa using h

/-- Reading one full player record in place. -/
theorem playerSlot_at (p : SourcePacket) (pre suf : List Nat) (i : Nat)
    (nm : List Nat) (sc : Int) (du : Nat)
    (hd : p.data = pre ++ playerBytes i nm sc du ++ suf) (hp : p.pos = pre.length)
    (hnm : ∀ c ∈ nm, validChar c ∧ c ≠ 0)
    (h1 : -2147483648 ≤ sc) (h2 : sc < 2147483648) (hdu : du < 4294967296) :
    playerSlot p =
      (.ok (i, nm, sc, du), ⟨p.data, pre.length + (playerBytes i nm sc du).length⟩) := by
  have e1 := get_byte_at p pre (cstr nm ++ (int32LE sc ++ (toLE 4 du ++ suf))) i
    (by rw [hd, playerBytes]; simp) hp
  have e2 := get_string_at ⟨p.data, pre.length + 1⟩ (pre ++ [i])
    (int32LE sc ++ (toLE 4 du ++ suf)) nm
    (by rw [hd, playerBytes]; simp) (by simp) hnm
  have e3 := get_long_int32LE
    ⟨p.data, (pre ++ [i]).length + (utf8Encode nm).length + 1⟩
    ((pre ++ [i]) ++ cstr nm) (toLE 4 du ++ suf) sc
    (by rw [hd, playerBytes, cstr]; simp) (by simp [cstr]; omega) h1 h2
  have e4 := get_float_toLE4
    ⟨p.data, ((pre ++ [i]) ++ cstr nm).length + 4⟩
    (((pre ++ [i]) ++ cstr nm) ++ int32LE sc) suf du
    (by rw [hd, playerBytes, cstr]; simp) (by simp [int32LE_length]; omega) hdu
  unfold playerSlot
  simp only [e1, e2, e3, e4]
  simp [playerBytes, cstr, int32LE_length, toLE_length]
  omega

/-- One successful slot of the players loop. -/
theorem playersLoop_succ_ok (p p' : SourcePacket) (x k : Nat) (i : Nat)
    (nm : List Nat) (sc : Int) (du : Nat)
    (h : playerSlot p = (.ok (i, nm, sc, du), p')) :
    playersLoop p x (k + 1) = .full i nm sc du :: playersLoop p' (x + 1) k := by
  rw [playersLoop, h]

/-- One failed slot of the players loop: the pre-seeded slot number stays. -/
theorem playersLoop_succ_err (p p' : SourcePacket) (x k : Nat) (e : PyErr)
    (h : playerSlot p = (.error e, p')) :
    playersLoop p x (k + 1) = .bare x :: playersLoop p' (x + 1) k := by
  rw [playersLoop, h]

/-- C7: a players response advertising 3 players but carrying full wire data
for only two records (plus a stray index byte) decodes to a length-3
sequence: two full records followed by the bare slot marker 2.  The third
attempt consumes the stray byte and fails on the name read, and the failure
is absorbed into the bare marker rather than aborting. -/
theorem players_degraded_decode (i0 i1 b : Nat) (n0 n1 : List Nat)
    (s0 s1 : Int) (d0 d1 : Nat) (_hi0 : i0 < 256) (_hi1 : i1 < 256) (_hb : b < 256)
    (hn0 : ∀ c ∈ n0, validChar c ∧ c ≠ 0) (hn1 : ∀ c ∈ n1, validChar c ∧ c ≠ 0)
    (hs0 : -2147483648 ≤ s0) (hs0' : s0 < 2147483648)
    (hs1 : -2147483648 ≤ s1) (hs1' : s1 < 2147483648)
    (hd0 : d0 < 4294967296) (hd1 : d1 < 4294967296) :
    playersDecode ⟨[255, 255, 255, 255, 68, 3] ++ playerBytes i0 n0 s0 d0 ++
      playerBytes i1 n1 s1 d1 ++ [b], 0⟩ =
      .ok [.full i0 n0 s0 d0, .full i1 n1 s1 d1, .bare 2] := by
  have hpre : playersDecode ⟨[255, 255, 255, 255, 68, 3] ++ playerBytes i0 n0 s0 d0 ++
      playerBytes i1 n1 s1 d1 ++ [b], 0⟩ =
      .ok (playersLoop ⟨[255, 255, 255, 255, 68, 3] ++ playerBytes i0 n0 s0 d0 ++
        playerBytes i1 n1 s1 d1 ++ [b], 6⟩ 0 3) := by
    simp [playersDecode, orErr, SourcePacket.get_long, SourcePacket.get_byte,
      SourcePacket.read1, bind, Except.bind, pure, Except.pure]
  have e0 : playerSlot ⟨[255, 255, 255, 255, 68, 3] ++ playerBytes i0 n0 s0 d0 ++
      playerBytes i1 n1 s1 d1 ++ [b], 6⟩ =
      (.ok (i0, n0, s0, d0), ⟨[255, 255, 255, 255, 68, 3] ++ playerBytes i0 n0 s0 d0 ++
        playerBytes i1 n1 s1 d1 ++ [b], 6 + (playerBytes i0 n0 s0 d0).length⟩) := by
    have h := playerSlot_at ⟨[255, 255, 255, 255, 68, 3] ++ playerBytes i0 n0 s0 d0 ++
        playerBytes i1 n1 s1 d1 ++ [b], 6⟩ [255, 255, 255, 255, 68, 3]
      (playerBytes i1 n1 s1 d1 ++ [b]) i0 n0 s0 d0 (by simp) rfl hn0 hs0 hs0' hd0
    simpa using h
  have e1 : playerSlot ⟨[255, 255, 255, 255, 68, 3] ++ playerBytes i0 n0 s0 d0 ++
      playerBytes i1 n1 s1 d1 ++ [b], 6 + (playerBytes i0 n0 s0 d0).length⟩ =
      (.ok (i1, n1, s1, d1), ⟨[255, 255, 255, 255, 68, 3] ++ playerBytes i0 n0 s0 d0 ++
        playerBytes i1 n1 s1 d1 ++ [b],
        6 + (playerBytes i0 n0 s0 d0).length + (playerBytes i1 n1 s1 d1).length⟩) := by
    have h := playerSlot_at ⟨[255, 255, 255, 255, 68, 3] ++ playerBytes i0 n0 s0 d0 ++
        playerBytes i1 n1 s1 d1 ++ [b], 6 + (playerBytes i0 n0 s0 d0).length⟩
      ([255, 255, 255, 255, 68, 3] ++ playerBytes i0 n0 s0 d0)
      [b] i1 n1 s1 d1 (by simp) (by simp; omega) hn1 hs1 hs1' hd1
    convert h using 3
    all_goals simp [playerBytes, cstr, int32LE_length, toLE_length]
    all_goals omega
  have e2 : playerSlot ⟨[255, 255, 255, 255, 68, 3] ++ playerBytes i0 n0 s0 d0 ++
      playerBytes i1 n1 s1 d1 ++ [b],
      6 + (playerBytes i0 n0 s0 d0).length + (playerBytes i1 n1 s1 d1).length⟩ =
      (.error .valueError, ⟨[255, 255, 255, 255, 68, 3] ++ playerBytes i0 n0 s0 d0 ++
        playerBytes i1 n1 s1 d1 ++ [b],
        6 + (playerBytes i0 n0 s0 d0).length + (playerBytes i1 n1 s1 d1).length + 1⟩) := by
    have hgb := get_byte_at ⟨[255, 255, 255, 255, 68, 3] ++ playerBytes i0 n0 s0 d0 ++
      playerBytes i1 n1 s1 d1 ++ [b],
      6 + (playerBytes i0 n0 s0 d0).length + (playerBytes i1 n1 s1 d1).length⟩
      ([255, 255, 255, 255, 68, 3] ++ playerBytes i0 n0 s0 d0 ++ playerBytes i1 n1 s1 d1)
      [] b (by simp) (by simp; omega)
    have hgs := get_string_past_end ⟨[255, 255, 255, 255, 68, 3] ++
      playerBytes i0 n0 s0 d0 ++ playerBytes i1 n1 s1 d1 ++ [b],
      ([255, 255, 255, 255, 68, 3] ++ playerBytes i0 n0 s0 d0 ++
        playerBytes i1 n1 s1 d1).length + 1⟩ (by simp; omega)
    unfold playerSlot
    simp only [hgb, hgs]
    simp
    omega
  have t0 := playersLoop_succ_ok _ _ 0 2 i0 n0 s0 d0 e0
  have t1 := playersLoop_succ_ok _ _ 1 1 i1 n1 s1 d1 e1
  have t2 := playersLoop_succ_err _ _ 2 0 .valueError e2
  rw [hpre, show (3 : Nat) = 2 + 1 from rfl, t0, t1, t2]
  rfl

/-- Witness for C7: three advertised players, full data for two single-letter
names, one stray byte. -/
theorem players_degraded_decode_witness :
    playersDecode ⟨[255, 255, 255, 255, 68, 3] ++ playerBytes 0 [116] 5 0 ++
      playerBytes 1 [117] (-3) 1 ++ [7], 0⟩ =
      .ok [.full 0 [116] 5 0, .full 1 [117] (-3) 1, .bare 2] :=
  players_degraded_decode 0 1 7 [116] [117] 5 (-3) 0 1 (by decide) (by decide)
    (by decide) (by decide) (by decide) (by decide) (by decide) (by decide)
    (by decide) (by decide) (by decide)

/-! ## Rules decoder lemmas -/

/-- One fully-read rule of the rules loop. -/
theorem rulesLoop_succ_ok_ok (p p' p'' : SourcePacket) (rules : RuleDict)
    (k : Nat) (name value : List Nat)
    (h1 : p.get_string = (.ok name, p'))
    (h2 : p'.get_string = (.ok value, p'')) :
    rulesLoop p rules (k + 1) = rulesLoop p'' (pyDictInsert rules name value) k := by
  simp [rulesLoop, h1, h2]

/-- C8: the rules decode (i) skips a rule entirely when its name read fails,
(ii) records the `"N/A - packet cut off"` sentinel when the name succeeds
but the value read fails, (iii) keeps the last value when a rule name
repeats, and (iv) never aborts once the 7-byte preamble is readable. -/
theorem rules_degraded_decode :
    (∀ (p p' : SourcePacket) (rules : RuleDict) (k : Nat) (e : PyErr),
      p.get_string = (.error e, p') →
      rulesLoop p rules (k + 1) = rulesLoop p' rules k) ∧
    (∀ (p p' p'' : SourcePacket) (rules : RuleDict) (k : Nat) (name : List Nat)
      (e : PyErr),
      p.get_string = (.ok name, p') → p'.get_string = (.error e, p'') →
      rulesLoop p rules (k + 1) =
        rulesLoop p'' (pyDictInsert rules name cutOffSentinel) k) ∧
    (∀ (n v1 v2 : List Nat),
      (∀ c ∈ n, validChar c ∧ c ≠ 0) → (∀ c ∈ v1, validChar c ∧ c ≠ 0) →
      (∀ c ∈ v2, validChar c ∧ c ≠ 0) →
      rulesDecode ⟨[255, 255, 255, 255, 69, 2, 0] ++ cstr n ++ cstr v1 ++
        cstr n ++ cstr v2, 0⟩ = .ok [(n, v2)]) ∧
    (∀ (d : List Nat), 7 ≤ d.length → ∃ m, rulesDecode ⟨d, 0⟩ = .ok m) := by
  refine ⟨?_, ?_, ?_, ?_⟩
  · intro p p' rules k e h
    simp [rulesLoop, h]
  · intro p p' p'' rules k name e h1 h2
    simp [rulesLoop, h1, h2]
  · intro n v1 v2 hn hv1 hv2
    have hpre : rulesDecode ⟨[255, 255, 255, 255, 69, 2, 0] ++ cstr n ++ cstr v1 ++
        cstr n ++ cstr v2, 0⟩ =
        .ok (rulesLoop ⟨[255, 255, 255, 255, 69, 2, 0] ++ cstr n ++ cstr v1 ++
          cstr n ++ cstr v2, 7⟩ [] 2) := by
      simp [rulesDecode, orErr, SourcePacket.get_long, SourcePacket.get_short,
        SourcePacket.get_byte, SourcePacket.read1, bind, Except.bind, pure,
        Except.pure, fromLE, toSigned16]
    have E0 : (⟨[255, 255, 255, 255, 69, 2, 0] ++ cstr n ++ cstr v1 ++
        cstr n ++ cstr v2, 7⟩ : SourcePacket).get_string =
        (.ok n, ⟨[255, 255, 255, 255, 69, 2, 0] ++ cstr n ++ cstr v1 ++
          cstr n ++ cstr v2, 7 + (utf8Encode n).length + 1⟩) := by
      have h := get_string_at ⟨[255, 255, 255, 255, 69, 2, 0] ++ cstr n ++ cstr v1 ++
        cstr n ++ cstr v2, 7⟩ [255, 255, 255, 255, 69, 2, 0]
        (cstr v1 ++ (cstr n ++ cstr v2)) n (by simp) rfl hn
      simpa using h
    have E1 : (⟨[255, 255, 255, 255, 69, 2, 0] ++ cstr n ++ cstr v1 ++
        cstr n ++ cstr v2, 7 + (utf8Encode n).length + 1⟩ : SourcePacket).get_string =
        (.ok v1, ⟨[255, 255, 255, 255, 69, 2, 0] ++ cstr n ++ cstr v1 ++
          cstr n ++ cstr v2,
          7 + (utf8Encode n).length + 1 + (utf8Encode v1).length + 1⟩) := by
      have h := get_string_at ⟨[255, 255, 255, 255, 69, 2, 0] ++ cstr n ++ cstr v1 ++
        cstr n ++ cstr v2, 7 + (utf8Encode n).length + 1⟩
        ([255, 255, 255, 255, 69, 2, 0] ++ cstr n) (cstr n ++ cstr v2) v1
        (by simp) (by simp [cstr]; omega) hv1
      convert h using 3
      all_goals simp [cstr]
      all_goals omega
    have E2 : (⟨[255, 255, 255, 255, 69, 2, 0] ++ cstr n ++ cstr v1 ++
        cstr n ++ cstr v2,
        7 + (utf8Encode n).length + 1 + (utf8Encode v1).length + 1⟩ :
          SourcePacket).get_string =
        (.ok n, ⟨[255, 255, 255, 255, 69, 2, 0] ++ cstr n ++ cstr v1 ++
          cstr n ++ cstr v2,
          7 + (utf8Encode n).length + 1 + (utf8Encode v1).length + 1 +
            (utf8Encode n).length + 1⟩) := by
      have h := get_string_at ⟨[255, 255, 255, 255, 69, 2, 0] ++ cstr n ++ cstr v1 ++
        cstr n ++ cstr v2,
        7 + (utf8Encode n).length + 1 + (utf8Encode v1).length + 1⟩
        ([255, 255, 255, 255, 69, 2, 0] ++ cstr n ++ cstr v1) (cstr v2) n
        (by simp) (by simp [cstr]; omega) hn
      convert h using 3
      all_goals simp [cstr]
      all_goals omega
    have E3 : (⟨[255, 255, 255, 255, 69, 2, 0] ++ cstr n ++ cstr v1 ++
        cstr n ++ cstr v2,
        7 + (utf8Encode n).length + 1 + (utf8Encode v1).length + 1 +
          (utf8Encode n).length + 1⟩ : SourcePacket).get_string =
        (.ok v2, ⟨[255, 255, 255, 255, 69, 2, 0] ++ cstr n ++ cstr v1 ++
          cstr n ++ cstr v2,
          7 + (utf8Encode n).length + 1 + (utf8Encode v1).length + 1 +
            (utf8Encode n).length + 1 + (utf8Encode v2).length + 1⟩) := by
      have h := get_string_at ⟨[255, 255, 255, 255, 69, 2, 0] ++ cstr n ++ cstr v1 ++
        cstr n ++ cstr v2,
        7 + (utf8Encode n).length + 1 + (utf8Encode v1).length + 1 +
          (utf8Encode n).length + 1⟩
        ([255, 255, 255, 255, 69, 2, 0] ++ cstr n ++ cstr v1 ++ cstr n) [] v2
        (by simp) (by simp [cstr]; omega) hv2
      convert h using 3
      all_goals simp [cstr]
      all_goals omega
    have t0 := rulesLoop_succ_ok_ok _ _ _ [] 1 n v1 E0 E1
    have t1 := rulesLoop_succ_ok_ok _ _ _ (pyDictInsert [] n v1) 0 n v2 E2 E3
    rw [hpre, show (2 : Nat) = 1 + 1 from rfl, t0, t1]
    simp [rulesLoop, pyDictInsert]
  · intro d h7
    rcases d with _ | ⟨b0, _ | ⟨b1, _ | ⟨b2, _ | ⟨b3, _ | ⟨b4, _ | ⟨b5, _ |
      ⟨b6, rest⟩⟩⟩⟩⟩⟩⟩ <;> simp at h7
    refine ⟨rulesLoop ⟨b0 :: b1 :: b2 :: b3 :: b4 :: b5 :: b6 :: rest, 7⟩ []
      (toSigned16 (fromLE [b5, b6])).toNat, ?_⟩
    simp [rulesDecode, orErr, SourcePacket.get_long, SourcePacket.get_short,
      SourcePacket.get_byte, SourcePacket.read1, bind, Except.bind, pure,
      Except.pure]

/-- Witness for C8 at concrete inputs: a failing name read on `[65]` (no
terminator), a name-then-truncated-value packet, a duplicate rule name
`"n"` with values `"1"` then `"2"`, and a 7-byte preamble-only packet. -/
theorem rules_degraded_decode_witness :
    rulesLoop ⟨[65], 0⟩ [] 1 = rulesLoop ⟨[65], 0⟩ [] 0 ∧
    rulesLoop ⟨[110, 0, 51], 0⟩ [] 1 =
      rulesLoop ⟨[110, 0, 51], 2⟩ (pyDictInsert [] [110] cutOffSentinel) 0 ∧
    rulesDecode ⟨[255, 255, 255, 255, 69, 2, 0] ++ cstr [110] ++ cstr [49] ++
      cstr [110] ++ cstr [50], 0⟩ = .ok [([110], [50])] ∧
    (∃ m, rulesDecode ⟨[255, 255, 255, 255, 69, 0, 0], 0⟩ = .ok m) := by
  refine ⟨?_, ?_, ?_, ?_⟩
  · exact rules_degraded_decode.1 ⟨[65], 0⟩ ⟨[65], 0⟩ [] 0 .valueError (by rfl)
  · exact rules_degraded_decode.2.1 ⟨[110, 0, 51], 0⟩ ⟨[110, 0, 51], 2⟩
      ⟨[110, 0, 51], 2⟩ [] 0 [110] .valueError (by rfl) (by rfl)
  · exact rules_degraded_decode.2.2.1 [110] [49] [50] (by decide) (by decide)
      (by decide)
  · exact rules_degraded_decode.2.2.2 [255, 255, 255, 255, 69, 0, 0] (by decide)
